import Mathlib

/-!
Verification development for the immich-sync repository.

The Python sources under `app/` are shallowly embedded: dictionaries become
association lists, JSON scalars become an inductive `JVal`, remote HTTP calls
become explicit oracles (`RemoteEnv`, a `post` function), and the fallible
parts return `Except`.  The asynchronous worker pool of `sync_assets` is
modelled as a sequential fold over the generated task list: each task's
state update runs inside one critical section in the source (the dry-run
branch and every post-`await` update are synchronous), so the observable
summary/index states are exactly the fold's intermediate states, taken in
completion order.
-/

namespace ImmichSync

/-- Scalar JSON values as they occur in asset dictionaries
(`null`, booleans, integers, strings).  Floats do not occur in the
modelled code paths and are omitted. -/
inductive JVal where
  | null
  | bool (b : Bool)
  | int (n : Int)
  | str (s : String)
  deriving DecidableEq, Repr

/-- Python truthiness of a scalar value (`bool(x)`). -/
def JVal.truthy : JVal → Bool
  | .null => false
  | .bool b => b
  | .int n => n != 0
  | .str s => s != ""

/-- Python `str(x)` for scalar values. -/
def JVal.pyStr : JVal → String
  | .null => "None"
  | .bool b => if b then "True" else "False"
  | .int n => toString n
  | .str s => s

/-- Python `x or y` on scalar values: the left operand when truthy,
otherwise the right operand. -/
def jor (a b : JVal) : JVal := if a.truthy then a else b

/-- A Python dict with string keys, as produced by the Immich API JSON:
an association list looked up first-match.  The builders below never
create duplicate keys, matching dict semantics. -/
abbrev Asset := List (String × JVal)

/-- Python `d.get(k)` on an asset dict: the stored value, or `None` when
the key is absent. -/
def Asset.getv (a : Asset) (k : String) : JVal :=
  match a.find? (fun kv => decide (kv.1 = k)) with
  | some kv => kv.2
  | none => .null

/-- Key presence in an asset dict (`k in d`). -/
def Asset.hasKey (a : Asset) (k : String) : Bool :=
  (a.find? (fun kv => decide (kv.1 = k))).isSome

/-- Python truthiness of a dict: non-empty. -/
def Asset.truthy (a : Asset) : Bool := a ≠ []

/- ### Generic association-list operations shared by the embedded dicts. -/

section AList
variable {α β : Type} [DecidableEq α]

/-- First-match lookup, the semantics of `d[k]` / `d.get(k)`. -/
def alookup (m : List (α × β)) (k : α) : Option β :=
  (m.find? (fun kv => decide (kv.1 = k))).map (·.2)

/-- Python `d[k] = v`: replace the value in place when the key exists
(dicts keep insertion order), otherwise append the new binding at the end. -/
def ainsert (m : List (α × β)) (k : α) (v : β) : List (α × β) :=
  match m with
  | [] => [(k, v)]
  | kv :: rest => if kv.1 = k then (k, v) :: rest else kv :: ainsert rest k v

/-- Python `d.setdefault(k, v)` restricted to its mutating effect: insert
only when the key is absent. -/
def asetdefault (m : List (α × β)) (k : α) (v : β) : List (α × β) :=
  if (alookup m k).isSome then m else m ++ [(k, v)]

/-- Apply `f` to the value stored under `k`, when present; mirrors the
in-place mutation `d[k].field += 1` (Python raises on an absent key; the
embedded callers only use keys they have initialised). -/
def amodify (m : List (α × β)) (k : α) (f : β → β) : List (α × β) :=
  match m with
  | [] => []
  | kv :: rest => if kv.1 = k then (kv.1, f kv.2) :: rest else kv :: amodify rest k f

end AList

/-! ## Remote client (`app/immich_client.py`) — bulk-upload check

`ImmichClient.check_bulk_upload` issues a single
`POST /api/assets/bulk-upload-check` and calls `raise_for_status()` on the
response.  The HTTP transport is an oracle mapping the endpoint path to a
response; the embedding also returns the list of endpoints hit, in order.
-/

/-- An HTTP response: status code and parsed JSON body (only the shapes the
modelled code inspects). -/
structure HttpResponse where
  status : Nat
  body : List (String × List JVal)
  deriving DecidableEq, Repr

/-- Embedding of `ImmichClient.check_bulk_upload` (immich_client.py lines
100-103): one `POST /api/assets/bulk-upload-check`; `raise_for_status()` raises for
any status ≥ 400 (modelled as `Except.error status`), else the parsed body
is returned.  The second component is the trace of endpoints hit. -/
def check_bulk_upload (post : String → HttpResponse) :
    Except Nat (List (String × List JVal)) × List String :=
  let resp := post "/api/assets/bulk-upload-check"
  if resp.status ≥ 400 then (.error resp.status, ["/api/assets/bulk-upload-check"])
  else (.ok resp.body, ["/api/assets/bulk-upload-check"])

/-- The transport of the claim's scenario: `/api/assets/check` answers 404,
`/api/asset/check` answers 200 with `{"results":["ok"]}`, and the endpoint
the code actually uses is absent (404) as well. -/
def fallbackScenarioPost : String → HttpResponse := fun endpoint =>
  if endpoint = "/api/asset/check" then ⟨200, [("results", [.str "ok"])]⟩
  else ⟨404, []⟩

/-! ## Configuration loading (`app/sync.py::load_config`)

`load_config` reads a JSON file; the embedding starts from the parsed JSON
value (file-system and JSON-decode failures are I/O concerns outside the
modelled validation).  Full JSON values are needed here, so a nested type
`J` extends the scalars with arrays and objects.
-/

/-- Parsed JSON values for the configuration file. -/
inductive J where
  | scalar (v : JVal)
  | arr (xs : List J)
  | obj (kvs : List (String × J))

/-- Python `str(x)` lifted to full JSON values.  Container reprs are
abbreviated (the modelled claims only apply `str` to scalars; only
non-emptiness of a container repr is ever observable downstream). -/
def J.pyStr : J → String
  | .scalar v => v.pyStr
  | .arr _ => "[...]"
  | .obj _ => "\x7b...\x7d"

/-- Lookup in a JSON object (`d.get(k)` semantics, `none` when absent). -/
def jLookup (kvs : List (String × J)) (k : String) : Option J :=
  (kvs.find? (fun kv => decide (kv.1 = k))).map (·.2)

/-- Python whitespace as stripped by `str.strip()` and `int(str)`. -/
def isSpaceChar (c : Char) : Bool :=
  c = ' ' || c = '\t' || c = '\n' || c = '\r' || c = '\x0b' || c = '\x0c'

/-- Python `s.strip()`: drop whitespace from both ends. -/
def pyStrip (s : String) : String :=
  ⟨((s.data.dropWhile isSpaceChar).reverse.dropWhile isSpaceChar).reverse⟩

/-- Digits-only parse used by `pyStrToInt?`. -/
def digitsToNat? (cs : List Char) : Option Nat :=
  if cs = [] then none
  else if cs.all (·.isDigit) then
    some (cs.foldl (fun n c => n * 10 + (c.toNat - 48)) 0)
  else none

/-- Python `int(s)` on a string: surrounding whitespace stripped, optional
sign, then decimal digits; anything else raises `ValueError` (`none`).
(Digit-group underscores accepted by CPython are not modelled; no claim
involves them.) -/
def pyStrToInt? (s : String) : Option Int :=
  match (pyStrip s).data with
  | '+' :: rest => (digitsToNat? rest).map Int.ofNat
  | '-' :: rest => (digitsToNat? rest).map (fun n => -(n : Int))
  | cs => (digitsToNat? cs).map Int.ofNat

/-- Python `int(x)` on a JSON value: ints pass through, bools coerce to
0/1 (`bool` is a subclass of `int`), strings are parsed, everything else
raises (`none`). -/
def pyInt? : J → Option Int
  | .scalar .null => none
  | .scalar (.bool b) => some (if b then 1 else 0)
  | .scalar (.int n) => some n
  | .scalar (.str s) => pyStrToInt? s
  | .arr _ => none
  | .obj _ => none

/-- Dataclass `ServerConfig` (sync.py lines 21-27). -/
structure ServerConfig where
  name : String
  base_url : String
  api_key : String
  album_id : String
  size_limit_bytes : Option Int := none
  deriving DecidableEq, Repr

/-- Dataclass `SyncConfig` (sync.py lines 30-32); the tuple of servers is a
list. -/
structure SyncConfig where
  servers : List ServerConfig
  deriving DecidableEq, Repr

/-- An ASCII single quote, kept out of string literals. -/
def sq : String := String.singleton (Char.ofNat 39)

/-- The per-entry loop of `load_config` (sync.py lines 101-139): field
presence, name validation, duplicate detection, and the
`size_limit_bytes` coercion (`int(size_limit_raw)`, then positivity). -/
def parseServers : List J → Nat → List String → List ServerConfig →
    Except String (List ServerConfig)
  | [], _, _, acc => .ok acc
  | entry :: rest, idx, seen, acc =>
    match entry with
    | .obj kvs =>
      let missing := ["name", "base_url", "api_key", "album_id"].filter
        (fun f => (jLookup kvs f).isNone)
      if missing ≠ [] then
        let ms := String.intercalate ", " missing
        .error s!"servers[{idx}] is missing fields: {ms}"
      else
        let name := pyStrip (J.pyStr ((jLookup kvs "name").getD (.scalar .null)))
        if name = "" then .error s!"servers[{idx}].name cannot be empty"
        else if name ∈ seen then
          .error ("Duplicate server name " ++ sq ++ name ++ sq ++ " in config")
        else
          let base_url := pyStrip (J.pyStr ((jLookup kvs "base_url").getD (.scalar .null)))
          let api_key := pyStrip (J.pyStr ((jLookup kvs "api_key").getD (.scalar .null)))
          let album_id := pyStrip (J.pyStr ((jLookup kvs "album_id").getD (.scalar .null)))
          -- `entry.get("size_limit_bytes")` yields None both when the key is
          -- absent and when its value is JSON null.
          let slRaw : Option J :=
            match jLookup kvs "size_limit_bytes" with
            | none => none
            | some (.scalar .null) => none
            | some v => some v
          match slRaw with
          | none =>
            parseServers rest (idx + 1) (seen ++ [name])
              (acc ++ [⟨name, base_url, api_key, album_id, none⟩])
          | some v =>
            match pyInt? v with
            | none => .error s!"servers[{idx}].size_limit_bytes must be an integer"
            | some n =>
              if n ≤ 0 then .error "size_limit_bytes must be positive if provided"
              else
                parseServers rest (idx + 1) (seen ++ [name])
                  (acc ++ [⟨name, base_url, api_key, album_id, some n⟩])
    | _ => .error s!"servers[{idx}] must be an object"

/-- The error for a missing or empty servers array, with single quotes
around the word servers. -/
def noServersMsg : String :=
  "Config JSON must contain a non-empty " ++ sq ++ "servers" ++ sq ++ " array"

/-- Embedding of `load_config` (sync.py lines 85-144) from the parsed JSON
value: requires a dict with a non-empty `servers` list, validates every
entry, and requires at least two servers. -/
def load_config (raw : J) : Except String SyncConfig :=
  let serversData : Option (List J) :=
    match raw with
    | .obj kvs =>
      match jLookup kvs "servers" with
      | some (.arr xs) => some xs
      | _ => none
    | _ => none
  match serversData with
  | none => .error noServersMsg
  | some [] => .error noServersMsg
  | some xs =>
    match parseServers xs 0 [] [] with
    | .error e => .error e
    | .ok servers =>
      if servers.length < 2 then
        .error "Config must define at least two servers to sync"
      else .ok ⟨servers⟩

/-! ## Asset indexer and reconciler (`app/sync.py`) -/

/-- Inner index map of one server: checksum value → first asset seen with
that checksum. -/
abbrev CkMap := List (JVal × Asset)

/-- The two-level index: server name → inner checksum map. -/
abbrev Index := List (String × CkMap)

/-- The per-server body of `index_assets` (sync.py lines 152-163): iterate
assets in order, count falsy checksums, keep the first asset per checksum
(`setdefault`). -/
def indexServer (assets : List Asset) : CkMap × Nat :=
  assets.foldl
    (fun st a =>
      let ck := Asset.getv a "checksum"
      if ck.truthy then (asetdefault st.1 ck a, st.2) else (st.1, st.2 + 1))
    ([], 0)

/-- Embedding of `index_assets` (sync.py lines 147-164). -/
def index_assets (assetsByServer : List (String × List Asset)) :
    Index × List (String × Nat) :=
  assetsByServer.foldl
    (fun acc p =>
      let r := indexServer p.2
      (ainsert acc.1 p.1 r.1, ainsert acc.2 p.1 r.2))
    ([], [])

/-- Accumulate keys, skipping duplicates, in first-seen order.  Models the
Python set of checksums: its iteration order is unspecified, and nothing
downstream depends on more than membership and cardinality. -/
def dedupAppend (acc : List JVal) (ks : List JVal) : List JVal :=
  ks.foldl (fun a k => if k ∈ a then a else a ++ [k]) acc

/-- The union of all inner-map keys of an index (the set `all_checksums`
built in `compute_missing` and in `sync_assets`). -/
def unionKeys (index : Index) : List JVal :=
  index.foldl (fun a p => dedupAppend a (p.2.map (·.1))) []

/-- Constructor rank, for the total order used to model Python sorting. -/
def JVal.rank : JVal → Nat
  | .null => 0
  | .bool _ => 1
  | .int _ => 2
  | .str _ => 3

/-- A total order on scalar values.  In the running system checksums are
strings and this coincides with Python string sorting; across mixed types
Python `sorted` would raise, and the claims only use membership and length
of the sorted list, which any fixed order yields. -/
def jleb : JVal → JVal → Bool
  | .bool a, .bool b => !a || b
  | .int a, .int b => decide (a ≤ b)
  | .str a, .str b => decide (a ≤ b)
  | a, b => decide (a.rank ≤ b.rank)

/-- Ordered insertion for `sortJ`. -/
def insertJ (x : JVal) : List JVal → List JVal
  | [] => [x]
  | y :: ys => if jleb x y then x :: y :: ys else y :: insertJ x ys

/-- Insertion sort modelling Python `sorted`. -/
def sortJ (l : List JVal) : List JVal := l.foldr insertJ []

/-- Key membership in an inner map (`checksum in per_server`). -/
def ckContainsKey (m : CkMap) (ck : JVal) : Bool := (alookup m ck).isSome

/-- Embedding of `compute_missing` (sync.py lines 167-178): for each
server, the union checksums absent from its inner map. -/
def compute_missing (index : Index) : List (String × List JVal) :=
  match index with
  | [] => []
  | _ =>
    let allCk := unionKeys index
    index.map (fun p => (p.1, allCk.filter (fun c => !(ckContainsKey p.2 c))))

/-- Dataclass `ServerStats` (sync.py lines 35-42). -/
structure ServerStats where
  initial_assets : Nat
  missing_before : Nat
  remaining : Nat
  copied : Nat := 0
  linked : Nat := 0
  oversized : Nat := 0
  deriving DecidableEq, Repr

/-- One entry of `summary.oversized[target]` (sync.py lines 258-262). -/
structure OversizedEntry where
  checksum : JVal
  filename : JVal
  size : JVal
  deriving DecidableEq, Repr

/-- Dataclass `SyncSummary` (sync.py lines 45-53); the report rendering is
not modelled. -/
structure SyncSummary where
  total_checksums : Nat
  copied : Nat := 0
  linked : Nat := 0
  errors : List String := []
  checksumless_assets : List (String × Nat) := []
  oversized : List (String × List OversizedEntry) := []
  per_server : List (String × ServerStats) := []
  deriving DecidableEq, Repr

/-- Embedding of `_select_source` (sync.py lines 300-309): the first
server, in declaration order, whose inner map stores a truthy (non-empty)
asset dict under the checksum. -/
def select_source (servers : List ServerConfig) (index : Index) (ck : JVal) :
    Option (ServerConfig × Asset) :=
  match servers with
  | [] => none
  | s :: rest =>
    match alookup ((alookup index s.name).getD []) ck with
    | some a => if Asset.truthy a then some (s, a) else select_source rest index ck
    | none => select_source rest index ck

/-- A generated task tuple `(checksum, source_config, source_asset,
target)` (sync.py line 218). -/
structure SyncTask where
  checksum : JVal
  source : ServerConfig
  source_asset : Asset
  target : ServerConfig
  deriving DecidableEq, Repr

/-- The error recorded when no source holds a checksum (sync.py line 222). -/
def noSourceMsg (ck : JVal) : String :=
  let c := JVal.pyStr ck
  s!"No source available for checksum {c}"

/-- The inner target loop of task generation (sync.py lines 225-230): one
task per server that is not the chosen source and lacks the checksum. -/
def tasksForChecksum (servers : List ServerConfig) (index : Index) (ck : JVal)
    (src : ServerConfig) (a : Asset) : List SyncTask :=
  servers.filterMap (fun t =>
    if t.name = src.name then none
    else if ckContainsKey ((alookup index t.name).getD []) ck then none
    else some ⟨ck, src, a, t⟩)

/-- Task generation over the sorted union (sync.py lines 218-230),
collecting no-source errors in order. -/
def genTasks (servers : List ServerConfig) (index : Index) (cks : List JVal) :
    List SyncTask × List String :=
  cks.foldl
    (fun acc ck =>
      match select_source servers index ck with
      | none => (acc.1, acc.2 ++ [noSourceMsg ck])
      | some (src, a) => (acc.1 ++ tasksForChecksum servers index ck src a, acc.2))
    ([], [])

/-! ## Transfer executor (`app/sync.py::_ensure_asset_on_target`) -/

/-- The remote responses one task can observe, one oracle per task:
the result of `_find_existing_asset` (which swallows its own errors and
returns an optional id), and the `Except`-valued outcomes of the album
add, download and upload calls (`error msg` models a raised exception
whose `str` is `msg`). -/
structure RemoteEnv where
  findExisting : Option String := none
  addExistingToAlbum : Except String Unit := .ok ()
  downloadContent : Except String Nat := .ok 0
  uploadResponse : Except String Asset := .ok []
  addNewToAlbum : Except String Unit := .ok ()

/-- Remote operations a task performs, in order. -/
inductive RemoteOp where
  | bulkCheck (checksum : JVal)
  | albumAdd (albumId : String) (ids : List JVal)
  | download (assetId : JVal)
  | upload (filename : JVal) (deviceAssetId : JVal) (deviceId : JVal)
      (fileCreatedAt : JVal) (fileModifiedAt : JVal) (checksum : JVal)
  deriving DecidableEq, Repr

/-- How `_ensure_asset_on_target` terminates abnormally: the `OversizeError`
or any other exception with its message. -/
inductive EnsureErr where
  | oversize
  | failure (msg : String)
  deriving DecidableEq, Repr

/-- Python `isinstance(size, int)` view of a scalar: ints pass, bools are
ints (0/1), everything else is not an int. -/
def sizeAsInt? : JVal → Option Int
  | .int n => some n
  | .bool b => some (if b then 1 else 0)
  | _ => none

/-- The `deviceAssetId` upload-metadata field (sync.py line 355):
the source asset's `deviceAssetId` when truthy, else the string
`"{source.name}-{checksum}"`. -/
def uploadDeviceAssetId (source : ServerConfig) (ck : JVal) (a : Asset) : JVal :=
  let ckS := JVal.pyStr ck
  let srcName := source.name
  jor (Asset.getv a "deviceAssetId") (.str s!"{srcName}-{ckS}")

/-- Embedding of `_ensure_asset_on_target` (sync.py lines 326-366),
returning the result (`ok already_present` or a raised error) together
with the trace of remote operations attempted, in order. -/
def ensure_asset_on_target (ck : JVal) (source : ServerConfig) (a : Asset)
    (target : ServerConfig) (env : RemoteEnv) :
    Except EnsureErr Bool × List RemoteOp :=
  let size := Asset.getv a "size"
  -- Size gate A (lines 336-339): known-int size above the target limit.
  let gateA : Bool :=
    match target.size_limit_bytes, sizeAsInt? size with
    | some l, some n => decide (n > l)
    | _, _ => false
  if gateA then (.error .oversize, [])
  else
    -- `_find_existing_asset` issues one bulk-check and swallows every error.
    let ops0 := [RemoteOp.bulkCheck ck]
    let copyPath : Except EnsureErr Bool × List RemoteOp :=
      -- `source_asset["id"]`: a missing key raises KeyError, whose str is
      -- the quoted key.
      match alookup a "id" with
      | none => (.error (.failure (sq ++ "id" ++ sq)), ops0)
      | some assetId =>
        let ops1 := ops0 ++ [RemoteOp.download assetId]
        match env.downloadContent with
        | .error m => (.error (.failure m), ops1)
        | .ok contentLen =>
          -- Size gate B (lines 350-351): size unknown, downloaded length
          -- above the limit.
          let gateB : Bool :=
            match target.size_limit_bytes, sizeAsInt? size with
            | some l, none => decide ((contentLen : Int) > l)
            | _, _ => false
          if gateB then (.error .oversize, ops1)
          else
            let ckS := JVal.pyStr ck
            let srcName := source.name
            let filename := jor (Asset.getv a "originalFileName") (.str s!"asset_{ckS}")
            let deviceAssetId := uploadDeviceAssetId source ck a
            let deviceId := jor (Asset.getv a "deviceId") (.str s!"ImmichSync-{srcName}")
            let fileCreatedAt := jor (Asset.getv a "fileCreatedAt") (.str "")
            let fileModifiedAt :=
              jor (Asset.getv a "fileModifiedAt") (jor (Asset.getv a "fileCreatedAt") (.str ""))
            let ops2 := ops1 ++
              [RemoteOp.upload filename deviceAssetId deviceId fileCreatedAt fileModifiedAt ck]
            match env.uploadResponse with
            | .error m => (.error (.failure m), ops2)
            | .ok resp =>
              let newId := jor (Asset.getv resp "id") (Asset.getv resp "assetId")
              if !newId.truthy then
                (.error (.failure "Target API did not return an asset id after upload"), ops2)
              else
                let ops3 := ops2 ++ [RemoteOp.albumAdd target.album_id [newId]]
                match env.addNewToAlbum with
                | .error m => (.error (.failure m), ops3)
                | .ok _ => (.ok false, ops3)
    match env.findExisting with
    | some eid =>
      if eid ≠ "" then
        let ops1 := ops0 ++ [RemoteOp.albumAdd target.album_id [.str eid]]
        match env.addExistingToAlbum with
        | .ok _ => (.ok true, ops1)
        | .error m => (.error (.failure m), ops1)
      else copyPath
    | none => copyPath

/-! ## Task processing and the sync pipeline (`app/sync.py::sync_assets`) -/

/-- Mutable state a task can touch: the summary and the shared index. -/
structure RunState where
  summary : SyncSummary
  index : Index
  deriving DecidableEq, Repr

/-- The error string of the generic failure branch (sync.py line 272). -/
def failMsg (ck : JVal) (srcName tgtName msg : String) : String :=
  let c := JVal.pyStr ck
  s!"Failed to copy {c} from {srcName} to {tgtName}: {msg}"

/-- Embedding of `_register_completion` (sync.py lines 312-323): record the
source asset under the target's name in the index, and decrement the
target's `remaining` when positive. -/
def register_completion (st : RunState) (targetName : String) (ck : JVal)
    (a : Asset) : RunState :=
  let inner := (alookup st.index targetName).getD []
  let index := ainsert st.index targetName (ainsert inner ck a)
  let per := amodify st.summary.per_server targetName (fun s =>
    if s.remaining > 0 then { s with remaining := s.remaining - 1 } else s)
  { st with index := index, summary := { st.summary with per_server := per } }

/-- The oversize branch of `process_task` (sync.py lines 256-270): bump the
target's counter and append the `{checksum, filename, size}` entry. -/
def bumpOversized (sm : SyncSummary) (tname : String) (entry : OversizedEntry) :
    SyncSummary :=
  { sm with
    per_server := amodify sm.per_server tname (fun s => { s with oversized := s.oversized + 1 }),
    oversized := ainsert sm.oversized tname (((alookup sm.oversized tname).getD []) ++ [entry]) }

/-- Embedding of the `process_task` closure (sync.py lines 238-287).  The
dry-run branch bumps only the global copied counter and registers the
completion; otherwise the outcome of `_ensure_asset_on_target` is reduced
to linked / copied / oversize / error, never re-raised.  (The `tqdm`
progress-bar update in the `finally` block is terminal I/O and is not
modelled.) -/
def process_task (dry : Bool) (st : RunState) (t : SyncTask) (env : RemoteEnv) :
    RunState :=
  if dry then
    let st' := { st with summary := { st.summary with copied := st.summary.copied + 1 } }
    register_completion st' t.target.name t.checksum t.source_asset
  else
    match (ensure_asset_on_target t.checksum t.source t.source_asset t.target env).1 with
    | .error .oversize =>
      let entry : OversizedEntry :=
        ⟨t.checksum, Asset.getv t.source_asset "originalFileName",
          Asset.getv t.source_asset "size"⟩
      { st with summary := bumpOversized st.summary t.target.name entry }
    | .error (.failure m) =>
      { st with summary := { st.summary with
          errors := st.summary.errors ++ [failMsg t.checksum t.source.name t.target.name m] } }
    | .ok true =>
      let sm1 := { st.summary with linked := st.summary.linked + 1 }
      let per := amodify sm1.per_server t.target.name (fun s => { s with linked := s.linked + 1 })
      register_completion { st with summary := { sm1 with per_server := per } }
        t.target.name t.checksum t.source_asset
    | .ok false =>
      let sm1 := { st.summary with copied := st.summary.copied + 1 }
      let per := amodify sm1.per_server t.target.name (fun s => { s with copied := s.copied + 1 })
      register_completion { st with summary := { sm1 with per_server := per } }
        t.target.name t.checksum t.source_asset

/-- Sequential fold over the tasks, each with its own remote oracle.  The
`asyncio.gather` execution interleaves tasks, but every summary/index
update of one task runs without suspension between them, so the sequence
of observable states is this fold in completion order. -/
def runTasks (dry : Bool) (st : RunState) (pairs : List (SyncTask × RemoteEnv)) :
    RunState :=
  pairs.foldl (fun s p => process_task dry s p.1 p.2) st

/-- Pair each generated task with its oracle (indexed by position). -/
def withEnvs (tasks : List SyncTask) (envs : Nat → RemoteEnv) :
    List (SyncTask × RemoteEnv) :=
  tasks.enum.map (fun p => (p.2, envs p.1))

/-- The `assets` dict built at the top of `sync_assets` (sync.py lines
196-199): one `list_album_assets` result per configured server.  The
`fetch` argument models a run where every server listed successfully. -/
def fetchedAssets (config : SyncConfig) (fetch : String → List Asset) :
    List (String × List Asset) :=
  config.servers.foldl (fun m s => ainsert m s.name (fetch s.name)) []

/-- The index built at sync.py line 201. -/
def syncIndex0 (config : SyncConfig) (fetch : String → List Asset) : Index :=
  (index_assets (fetchedAssets config fetch)).1

/-- The checksumless counts built at sync.py line 201. -/
def syncChecksumless (config : SyncConfig) (fetch : String → List Asset) :
    List (String × Nat) :=
  (index_assets (fetchedAssets config fetch)).2

/-- The missing map built at sync.py line 202. -/
def syncMissing (config : SyncConfig) (fetch : String → List Asset) :
    List (String × List JVal) :=
  compute_missing (syncIndex0 config fetch)

/-- The sorted union `all_checksums` (sync.py line 203). -/
def syncAllChecksums (config : SyncConfig) (fetch : String → List Asset) :
    List JVal :=
  sortJ (unionKeys (syncIndex0 config fetch))

/-- The `per_server` stats initialisation loop (sync.py lines 210-216). -/
def syncInitStats (config : SyncConfig) (fetch : String → List Asset) :
    List (String × ServerStats) :=
  config.servers.foldl
    (fun ps s =>
      let m := (alookup (syncMissing config fetch) s.name).getD []
      ainsert ps s.name
        ⟨((alookup (syncIndex0 config fetch) s.name).getD []).length,
          m.length, m.length, 0, 0, 0⟩)
    []

/-- Task generation with its collected no-source errors (sync.py lines
218-230). -/
def syncGen (config : SyncConfig) (fetch : String → List Asset) :
    List SyncTask × List String :=
  genTasks config.servers (syncIndex0 config fetch) (syncAllChecksums config fetch)

/-- The generated task list. -/
def syncTasks (config : SyncConfig) (fetch : String → List Asset) : List SyncTask :=
  (syncGen config fetch).1

/-- The summary and index as they stand when task execution begins
(sync.py line 290): totals and checksumless counts from line 205-208,
per-server stats from lines 210-216, and the no-source errors appended
during generation. -/
def syncInitState (config : SyncConfig) (fetch : String → List Asset) : RunState :=
  ⟨{ total_checksums := (syncAllChecksums config fetch).length,
     checksumless_assets := syncChecksumless config fetch,
     errors := (syncGen config fetch).2,
     per_server := syncInitStats config fetch },
   syncIndex0 config fetch⟩

/-- The observable state after the first `k` tasks have completed. -/
def syncStateAfter (config : SyncConfig) (fetch : String → List Asset)
    (dry : Bool) (envs : Nat → RemoteEnv) (k : Nat) : RunState :=
  runTasks dry (syncInitState config fetch)
    ((withEnvs (syncTasks config fetch) envs).take k)

/-- Embedding of `sync_assets` (sync.py lines 181-297): the returned
summary, together with the final state of the in-place mutated index. -/
def sync_assets (config : SyncConfig) (fetch : String → List Asset)
    (dry : Bool) (envs : Nat → RemoteEnv) : SyncSummary × Index :=
  let st := runTasks dry (syncInitState config fetch)
    (withEnvs (syncTasks config fetch) envs)
  (st.summary, st.index)

/-! ## Group progress (`app/sync_service.py::SyncService.run_sync_group`)

The progress record kept per sync group.  Database writes, wall-clock
fields (`started_at`, `eta_seconds`) and the thread mutex are not
modelled; every progress mutation in the source happens under the same
lock this fold represents.
-/

/-- The fields of an `Instance` row the progress loop reads
(models.py lines 57-65; `size_limit_bytes` is a non-null integer column). -/
structure SInstance where
  id : Nat
  label : String
  size_limit_bytes : Int
  deriving DecidableEq, Repr

/-- The observable progress record of one group (sync_service.py lines
205-217), restricted to the counter fields. -/
structure GroupProgress where
  total : Nat
  done : Nat
  per_done : List (Nat × Nat)
  oversizedCount : List (Nat × Nat)
  remaining : Nat
  deriving DecidableEq, Repr

/-- The truthy checksums of an instance's asset list
(`{a["checksum"] for a in assets if a.get("checksum")}`). -/
def truthyChecksums (assets : List Asset) : List JVal :=
  (assets.filter (fun a => (Asset.getv a "checksum").truthy)).map
    (fun a => Asset.getv a "checksum")

/-- The union of truthy checksums over all instances (sync_service.py lines
188-192).  Python iterates a set; only membership and counts are used. -/
def groupUnion (instances : List SInstance) (assetsOf : Nat → List Asset) :
    List JVal :=
  instances.foldl (fun acc i => dedupAppend acc (truthyChecksums (assetsOf i.id))) []

/-- Source search of the copy loop (sync_service.py lines 228-237): the
first other instance holding an asset whose checksum equals the target
checksum. -/
def findGroupSource (instances : List SInstance) (assetsOf : Nat → List Asset)
    (targetId : Nat) (ck : JVal) : Option (SInstance × Asset) :=
  match instances with
  | [] => none
  | i :: rest =>
    if i.id = targetId then findGroupSource rest assetsOf targetId ck
    else
      match (assetsOf i.id).find? (fun a => decide (Asset.getv a "checksum" = ck)) with
      | some cand => some (i, cand)
      | none => findGroupSource rest assetsOf targetId ck

/-- Progress initialisation (sync_service.py lines 195-217): per-instance
missing counts summed into `total`, `done` zeroed. -/
def progressInit (instances : List SInstance) (assetsOf : Nat → List Asset) :
    GroupProgress :=
  let union := groupUnion instances assetsOf
  let total := instances.foldl
    (fun n t => n + (union.filter (fun c => c ∉ truthyChecksums (assetsOf t.id))).length) 0
  ⟨total, 0, instances.map (fun i => (i.id, 0)), [], total⟩

/-- One `done += 1; per_instance[target.id]["done"] += 1` block. -/
def bumpDone (p : GroupProgress) (tid : Nat) : GroupProgress :=
  { p with done := p.done + 1, per_done := amodify p.per_done tid (· + 1) }

/-- One locked block of the copy branch (sync_service.py lines 263-277 and
its verbatim duplicate at lines 278-291): bump the counters, then recompute
`remaining = max(0, total - done)` (Nat subtraction clamps at zero). -/
def bumpCopyBlock (p : GroupProgress) (tid : Nat) : GroupProgress :=
  let p' := bumpDone p tid
  { p' with remaining := p'.total - p'.done }

/-- The progress portion of `run_sync_group` (sync_service.py lines
188-291).  Per missing (checksum, target) pair: the no-source branch bumps
`done` once; the oversize branch records the entry and bumps once; the
copy branch awaits the copy (its boolean result is discarded) and then
runs the locked bump block twice, verbatim-duplicated in the source.  A
non-integer non-null `size` would raise in Python; the client only
produces integers or null there, and the embedding treats that case as
not oversized. -/
def run_group_progress (instances : List SInstance)
    (assetsOf : Nat → List Asset) : GroupProgress :=
  let union := groupUnion instances assetsOf
  let p0 := progressInit instances assetsOf
  instances.foldl
    (fun pr target =>
      let owned := truthyChecksums (assetsOf target.id)
      let missing := union.filter (fun c => c ∉ owned)
      missing.foldl
        (fun pr ck =>
          match findGroupSource instances assetsOf target.id ck with
          | none => bumpDone pr target.id
          | some (_, sa) =>
            let oversize : Bool :=
              match sizeAsInt? (Asset.getv sa "size") with
              | some n => decide (n > target.size_limit_bytes)
              | none => false
            if oversize then
              let cnt := ((alookup pr.oversizedCount target.id).getD 0) + 1
              let pr' := { pr with
                oversizedCount := ainsert pr.oversizedCount target.id cnt }
              bumpDone pr' target.id
            else
              bumpCopyBlock (bumpCopyBlock pr target.id) target.id)
        pr)
    p0

/-! ## Statement helpers and spec-side definitions -/

/-- Whether the index stores checksum `ck` for server `n`. -/
def ckContains (idx : Index) (n : String) (ck : JVal) : Bool :=
  ckContainsKey ((alookup idx n).getD []) ck

/-- Sum of a per-server statistic over the `per_server` map. -/
def sumPerServer (ps : List (String × ServerStats)) (f : ServerStats → Nat) : Nat :=
  (ps.map (fun p => f p.2)).sum

/-- Number of tasks aimed at the server named `n`. -/
def countTasksFor (n : String) (ts : List SyncTask) : Nat :=
  (ts.filter (fun t => decide (t.target.name = n))).length

/-- Whether an `_ensure_asset_on_target` result is a success (the task
ends linked or copied). -/
def isCredited : Except EnsureErr Bool → Bool
  | .ok _ => true
  | .error _ => false

/-- Number of task/oracle pairs whose outcome is `linked` or `copied` for
target `n` (the completions that register on the index and decrement
`remaining`). -/
def countCredited (n : String) (pairs : List (SyncTask × RemoteEnv)) : Nat :=
  (pairs.filter (fun p => decide (p.1.target.name = n) &&
    isCredited (ensure_asset_on_target p.1.checksum p.1.source p.1.source_asset p.1.target p.2).1)).length

/-- Keys of an association list. -/
def akeys {α β : Type} (m : List (α × β)) : List α := m.map Prod.fst

/-- Number of task/oracle pairs for target `n` whose outcome is the
Oversize error. -/
def isOversize : Except EnsureErr Bool → Bool
  | .error .oversize => true
  | _ => false

def countOversized (n : String) (pairs : List (SyncTask × RemoteEnv)) : Nat :=
  (pairs.filter (fun p => decide (p.1.target.name = n) &&
    isOversize (ensure_asset_on_target p.1.checksum p.1.source p.1.source_asset
      p.1.target p.2).1)).length

/-- Modelled from the spec: the tagged per-task outcome set of §4.4/§7,
"{Linked, Copied, Oversize, Failed{message}}". -/
inductive TaskOutcome where
  | linked
  | copied
  | oversize
  | failed (msg : String)
  deriving DecidableEq, Repr

/-- Reduction of a task's `_ensure_asset_on_target` result to its tagged
outcome. -/
def taskOutcome (t : SyncTask) (env : RemoteEnv) : TaskOutcome :=
  match (ensure_asset_on_target t.checksum t.source t.source_asset t.target env).1 with
  | .ok true => .linked
  | .ok false => .copied
  | .error .oversize => .oversize
  | .error (.failure m) => .failed m

/-- Modelled from the spec: the "Outcome → counters" table of §4.4 — per
outcome, which counters move, which entry or error string is appended, and
that a successful task registers the completion on the index. -/
def applyOutcome (st : RunState) (t : SyncTask) : TaskOutcome → RunState
  | .linked =>
    let sm1 := { st.summary with linked := st.summary.linked + 1 }
    let per := amodify sm1.per_server t.target.name (fun s => { s with linked := s.linked + 1 })
    register_completion { st with summary := { sm1 with per_server := per } }
      t.target.name t.checksum t.source_asset
  | .copied =>
    let sm1 := { st.summary with copied := st.summary.copied + 1 }
    let per := amodify sm1.per_server t.target.name (fun s => { s with copied := s.copied + 1 })
    register_completion { st with summary := { sm1 with per_server := per } }
      t.target.name t.checksum t.source_asset
  | .oversize =>
    let entry : OversizedEntry :=
      ⟨t.checksum, Asset.getv t.source_asset "originalFileName",
        Asset.getv t.source_asset "size"⟩
    { st with summary := bumpOversized st.summary t.target.name entry }
  | .failed m =>
    { st with summary := { st.summary with
        errors := st.summary.errors ++ [failMsg t.checksum t.source.name t.target.name m] } }

/-! ## Concrete scenarios used by counterexamples and witnesses -/

/-- First configured server of the two-server demo sync. -/
def srvPrimary : ServerConfig := ⟨"primary", "https://primary", "one", "album-a", none⟩

/-- Second configured server of the two-server demo sync. -/
def srvSecondary : ServerConfig := ⟨"secondary", "https://secondary", "two", "album-b", none⟩

/-- Second server with a 5000-byte size limit. -/
def srvSecondaryCapped : ServerConfig :=
  ⟨"secondary", "https://secondary", "two", "album-b", some 5000⟩

/-- Demo configuration: primary and secondary. -/
def demoConfig : SyncConfig := ⟨[srvPrimary, srvSecondary]⟩

/-- Demo listing: primary holds one asset with checksum chk1, secondary is
empty. -/
def demoFetch : String → List Asset := fun n =>
  if n = "primary" then
    [[("id", JVal.str "asset-1"), ("checksum", JVal.str "chk1"),
      ("originalFileName", JVal.str "photo.jpg"), ("size", JVal.int 123)]]
  else []

/-- Demo configuration whose secondary server is size-capped. -/
def demoOversizeConfig : SyncConfig := ⟨[srvPrimary, srvSecondaryCapped]⟩

/-- Demo listing with a 10000-byte asset on primary only. -/
def demoOversizeFetch : String → List Asset := fun n =>
  if n = "primary" then
    [[("id", JVal.str "asset-1"), ("checksum", JVal.str "chk2"),
      ("originalFileName", JVal.str "big.mp4"), ("size", JVal.int 10000)]]
  else []

/-- A remote oracle on which a copy succeeds: nothing pre-exists, the
download yields 5 bytes and the upload response carries an id. -/
def envUploadOk : RemoteEnv :=
  { downloadContent := .ok 5, uploadResponse := .ok [("id", JVal.str "new-id")] }

/-- A source asset without a device_asset_id but with an original
filename. -/
def assetNoDeviceId : Asset :=
  [("id", JVal.str "1"), ("originalFileName", JVal.str "photo.jpg")]

/-- Group instance 1 of the C3 scenario (limit well above the asset). -/
def instOne : SInstance := ⟨1, "one", 1000⟩

/-- Group instance 2 of the C3 scenario. -/
def instTwo : SInstance := ⟨2, "two", 1000⟩

/-- Group listing: instance 1 holds one small asset, instance 2 nothing. -/
def instAssets : Nat → List Asset := fun n =>
  if n = 1 then
    [[("id", JVal.str "1"), ("checksum", JVal.str "c1"), ("size", JVal.int 10)]]
  else []

/-- First entry of the two-server configuration-file family, carrying the
given `size_limit_bytes` value. -/
def entryA (v : J) : J :=
  J.obj [("name", J.scalar (JVal.str "a")), ("base_url", J.scalar (JVal.str "u")),
         ("api_key", J.scalar (JVal.str "k")), ("album_id", J.scalar (JVal.str "al")),
         ("size_limit_bytes", v)]

/-- Second entry of the two-server configuration-file family. -/
def entryB : J :=
  J.obj [("name", J.scalar (JVal.str "b")), ("base_url", J.scalar (JVal.str "u2")),
         ("api_key", J.scalar (JVal.str "k2")), ("album_id", J.scalar (JVal.str "al2"))]

/-- A two-server configuration file whose first entry carries the given
`size_limit_bytes` value. -/
def configWithSizeLimit (v : J) : J :=
  J.obj [("servers", J.arr [entryA v, entryB])]

/-- The parsed servers of `configWithSizeLimit` for an accepted limit. -/
def parsedServersWith (limit : Option Int) : SyncConfig :=
  ⟨[⟨"a", "u", "k", "al", limit⟩, ⟨"b", "u2", "k2", "al2", none⟩]⟩

/-- The oversized asset of the capped demo. -/
def bigAsset : Asset :=
  [("id", JVal.str "asset-1"), ("checksum", JVal.str "chk2"),
   ("originalFileName", JVal.str "big.mp4"), ("size", JVal.int 10000)]

/-- The task shipping `bigAsset` to the capped secondary. -/
def demoTaskOversize : SyncTask :=
  ⟨JVal.str "chk2", srvPrimary, bigAsset, srvSecondaryCapped⟩

/-- A minimal run state for witnesses. -/
def emptyState : RunState := ⟨{ total_checksums := 0 }, []⟩

/-- Default server-stats record, used to project optional lookups in
closed statements. -/
def zeroStats : ServerStats := ⟨0, 0, 0, 0, 0, 0⟩

/-! # Theorems

Association-list lemmas first, then general invariants of the pipeline,
then the claim theorems. -/

section AListLemmas
variable {α β : Type} [DecidableEq α]

theorem alookup_nil (k : α) : alookup ([] : List (α × β)) k = none := rfl

theorem alookup_cons (kv : α × β) (m : List (α × β)) (k : α) :
    alookup (kv :: m) k = if kv.1 = k then some kv.2 else alookup m k := by
  by_cases h : kv.1 = k <;> simp [alookup, List.find?, h]

theorem alookup_ainsert_self (m : List (α × β)) (k : α) (v : β) :
    alookup (ainsert m k v) k = some v := by
  induction m with
  | nil => simp [ainsert, alookup_cons]
  | cons kv rest ih =>
    by_cases h : kv.1 = k
    · simp [ainsert, h, alookup_cons]
    · simp [ainsert, h, alookup_cons, ih]

theorem alookup_ainsert_ne (m : List (α × β)) (k k' : α) (v : β) (h : k ≠ k') :
    alookup (ainsert m k v) k' = alookup m k' := by
  induction m with
  | nil => simp [ainsert, alookup_cons, alookup_nil, h]
  | cons kv rest ih =>
    by_cases hk : kv.1 = k
    · subst hk
      simp [ainsert, alookup_cons, h]
    · by_cases hk' : kv.1 = k'
      · simp [ainsert, hk, alookup_cons, hk', Ne.symm h]
      · simp [ainsert, hk, alookup_cons, hk', ih]

theorem alookup_amodify_self (m : List (α × β)) (k : α) (f : β → β) (v : β)
    (h : alookup m k = some v) :
    alookup (amodify m k f) k = some (f v) := by
  induction m with
  | nil => simp [alookup_nil] at h
  | cons kv rest ih =>
    by_cases hk : kv.1 = k
    · simp [alookup_cons, hk] at h
      simp [amodify, hk, alookup_cons, h]
    · simp [alookup_cons, hk] at h
      simp [amodify, hk, alookup_cons, ih h]

theorem alookup_amodify_ne (m : List (α × β)) (k k' : α) (f : β → β) (h : k ≠ k') :
    alookup (amodify m k f) k' = alookup m k' := by
  induction m with
  | nil => simp [amodify]
  | cons kv rest ih =>
    by_cases hk : kv.1 = k
    · subst hk
      simp [amodify, alookup_cons, h]
    · by_cases hk' : kv.1 = k'
      · simp [amodify, hk, alookup_cons, hk', Ne.symm h]
      · simp [amodify, hk, alookup_cons, hk', ih]

theorem alookup_amodify_none (m : List (α × β)) (k : α) (f : β → β)
    (h : alookup m k = none) :
    amodify m k f = m := by
  induction m with
  | nil => rfl
  | cons kv rest ih =>
    by_cases hk : kv.1 = k
    · simp [alookup_cons, hk] at h
    · simp [alookup_cons, hk] at h
      simp [amodify, hk, ih h]

theorem alookup_ainsert_isSome (m : List (α × β)) (k k' : α) (v : β)
    (h : (alookup m k').isSome) : (alookup (ainsert m k v) k').isSome := by
  by_cases hk : k = k'
  · subst hk; simp [alookup_ainsert_self]
  · rwa [alookup_ainsert_ne m k k' v hk]

theorem alookup_amodify_isSome (m : List (α × β)) (k k' : α) (f : β → β)
    (h : (alookup m k').isSome) : (alookup (amodify m k f) k').isSome := by
  by_cases hk : k = k'
  · subst hk
    cases hv : alookup m k with
    | none => simp [hv] at h
    | some v => simp [alookup_amodify_self m k f v hv]
  · rwa [alookup_amodify_ne m k k' f hk]

end AListLemmas

/-! ## C1 — bulk-check endpoint fallback (code_bug evidence) -/

/-- C1: the claim (spec §4.1 and the repository's own
tests/test_immich_client.py) requires `check_bulk_upload` to try
`POST /api/assets/check` first and `POST /api/asset/check` on 404/405,
returning the first successful body.  Evaluated on the claim's literal
scenario — first variant 404, second variant 200 with
`{"results":["ok"]}` — the code instead issues a single
`POST /api/assets/bulk-upload-check` and surfaces its 404; neither check
variant is ever hit. -/
theorem C1_check_bulk_upload_no_fallback :
    check_bulk_upload fallbackScenarioPost
      = (.error 404, ["/api/assets/bulk-upload-check"]) ∧
    "/api/assets/check" ∉ (check_bulk_upload fallbackScenarioPost).2 ∧
    "/api/asset/check" ∉ (check_bulk_upload fallbackScenarioPost).2 := by
  refine ⟨rfl, ?_, ?_⟩ <;> decide

/-! ## C3 — monotone progress in `run_sync_group` (code_bug evidence) -/

/-- C3: `progress.done` is claimed to stay ≤ `progress.total`, each task
advancing it by exactly one.  On a group with two instances and one
missing asset — a single copy task — the verbatim-duplicated locked block
in the copy branch (sync_service.py lines 263-291) bumps `done` twice:
the run ends with `total = 1` but `done = 2`. -/
theorem C3_done_exceeds_total :
    (run_group_progress [instOne, instTwo] instAssets).total = 1 ∧
    (run_group_progress [instOne, instTwo] instAssets).done = 2 := by
  exact ⟨rfl, rfl⟩

/-! ## C6 — size gate A -/

/-- C6: when the target has a size limit and the source asset's size is a
known integer strictly above it, `_ensure_asset_on_target` raises
Oversize with an empty remote-operation trace (no bulk-check, no
download, no upload), and `process_task` records exactly one
`{checksum, filename, size}` entry under the target in
`summary.oversized`, bumps that target's `oversized` counter, and leaves
`copied`, `linked` and `errors` unchanged. -/
theorem C6_size_gate_oversize (st : RunState) (t : SyncTask) (env : RemoteEnv)
    (l n : Int)
    (hlim : t.target.size_limit_bytes = some l)
    (hsize : sizeAsInt? (Asset.getv t.source_asset "size") = some n)
    (hgt : l < n) :
    ensure_asset_on_target t.checksum t.source t.source_asset t.target env
      = (.error .oversize, []) ∧
    (process_task false st t env).summary.oversized
      = ainsert st.summary.oversized t.target.name
          (((alookup st.summary.oversized t.target.name).getD []) ++
            [⟨t.checksum, Asset.getv t.source_asset "originalFileName",
              Asset.getv t.source_asset "size"⟩]) ∧
    (process_task false st t env).summary.per_server
      = amodify st.summary.per_server t.target.name
          (fun s => { s with oversized := s.oversized + 1 }) ∧
    (process_task false st t env).summary.copied = st.summary.copied ∧
    (process_task false st t env).summary.linked = st.summary.linked ∧
    (process_task false st t env).summary.errors = st.summary.errors ∧
    (process_task false st t env).index = st.index := by
  have hE : ensure_asset_on_target t.checksum t.source t.source_asset t.target env
      = (.error .oversize, []) := by
    unfold ensure_asset_on_target
    simp only [hlim, hsize]
    have : decide (n > l) = true := by simpa using hgt
    simp [this]
  refine ⟨hE, ?_, ?_, ?_, ?_, ?_, ?_⟩ <;>
    simp [process_task, hE, bumpOversized]

/-- Witness for C6 at the capped demo task: limit 5000, size 10000. -/
theorem C6_size_gate_oversize_witness :
    ensure_asset_on_target demoTaskOversize.checksum demoTaskOversize.source
      demoTaskOversize.source_asset demoTaskOversize.target {}
      = (.error .oversize, []) :=
  (C6_size_gate_oversize emptyState demoTaskOversize {} 5000 10000 rfl rfl
    (by decide)).1

/-! ## C7 — deviceAssetId metadata fallback -/

/-- C7 counterexample: a source asset with no `deviceAssetId` but with
`originalFileName = "photo.jpg"`, copied from `primary` under checksum
`chk1`.  The claim predicts `deviceAssetId = "photo.jpg"` (filename
fallback); the code uploads with `deviceAssetId = "primary-chk1"` — the
filename is never consulted (sync.py line 355). -/
theorem C7_counterexample_no_filename_fallback :
    (ensure_asset_on_target (JVal.str "chk1") srvPrimary assetNoDeviceId
        srvSecondary envUploadOk).2
      = [RemoteOp.bulkCheck (JVal.str "chk1"), RemoteOp.download (JVal.str "1"),
         RemoteOp.upload (JVal.str "photo.jpg") (JVal.str "primary-chk1")
           (JVal.str "ImmichSync-primary") (JVal.str "") (JVal.str "")
           (JVal.str "chk1"),
         RemoteOp.albumAdd "album-b" [JVal.str "new-id"]] ∧
    Asset.getv assetNoDeviceId "originalFileName" = JVal.str "photo.jpg" ∧
    (Asset.getv assetNoDeviceId "deviceAssetId").truthy = false ∧
    JVal.str "primary-chk1" ≠ JVal.str "photo.jpg" := by
  refine ⟨rfl, rfl, rfl, by decide⟩

/-- C7 amended: every upload performed by the executor carries
`deviceAssetId = source_asset.device_asset_id` when truthy, else
`"{source.name}-{checksum}"` — the original filename takes no part in
this fallback. -/
theorem C7_amended_deviceAssetId (ck : JVal) (source : ServerConfig) (a : Asset)
    (target : ServerConfig) (env : RemoteEnv)
    (f dev did ca ma ck2 : JVal)
    (h : RemoteOp.upload f dev did ca ma ck2
      ∈ (ensure_asset_on_target ck source a target env).2) :
    dev = uploadDeviceAssetId source ck a := by
  unfold ensure_asset_on_target at h
  repeat' split at h
  all_goals simp only [apply_ite Prod.snd] at h
  all_goals (repeat' split at h)
  all_goals simp_all

/-- Witness for C7 amended: the demo upload of `assetNoDeviceId`. -/
theorem C7_amended_deviceAssetId_witness :
    JVal.str "primary-chk1"
      = uploadDeviceAssetId srvPrimary (JVal.str "chk1") assetNoDeviceId :=
  C7_amended_deviceAssetId (JVal.str "chk1") srvPrimary assetNoDeviceId
    srvSecondary envUploadOk (JVal.str "photo.jpg") (JVal.str "primary-chk1")
    (JVal.str "ImmichSync-primary") (JVal.str "") (JVal.str "") (JVal.str "chk1")
    (by decide)

/-! ## C8 — tasks never raise; outcomes reduce to the four-way table -/

/-- A non-dry task step equals the outcome table applied to the reduced
outcome (shared by several developments below). -/
theorem process_task_false_cases (st : RunState) (t : SyncTask) (env : RemoteEnv) :
    process_task false st t env = applyOutcome st t (taskOutcome t env) := by
  cases hr : (ensure_asset_on_target t.checksum t.source t.source_asset t.target env).1 with
  | ok b => cases b <;> simp [process_task, taskOutcome, applyOutcome, hr]
  | error e => cases e <;> simp [process_task, taskOutcome, applyOutcome, hr]

/-- C8: a task's behaviour refines the spec's outcome table: for every
state, task and remote oracle, `process_task` (total by construction —
nothing escapes to the harness) equals the spec-side `applyOutcome`
applied to the reduced outcome in {linked, copied, oversize, failed};
the failed branch appends exactly
`"Failed to copy <checksum> from <source> to <target>: <msg>"`.
The second conjunct splits the fold: tasks after a failure are still
processed, so `sync_assets` returns a summary covering them all. -/
theorem C8_task_outcomes (st : RunState) (t : SyncTask) (env : RemoteEnv)
    (pre post : List (SyncTask × RemoteEnv)) :
    process_task false st t env = applyOutcome st t (taskOutcome t env) ∧
    runTasks false st (pre ++ post) = runTasks false (runTasks false st pre) post := by
  constructor
  · exact process_task_false_cases st t env
  · simp [runTasks]

/-! ## C9 — size_limit_bytes validation in load_config -/

/-- C9 counterexample: a config whose first server carries
`size_limit_bytes: "100"` — present and a string, not a positive
integer.  The claim predicts rejection; `load_config` coerces with
`int(...)` and returns the parsed config with limit 100. -/
theorem C9_counterexample_string_accepted :
    load_config (configWithSizeLimit (J.scalar (JVal.str "100")))
      = .ok (parsedServersWith (some 100)) := by
  rfl

/-- Symbolic evaluation of `load_config` on the two-server family: only
the `size_limit_bytes` handling of the first entry depends on `v`. -/
theorem load_config_sizeField (v : J) :
    load_config (configWithSizeLimit v)
      = (match (match v with | J.scalar JVal.null => none | w => some w) with
         | none => Except.ok (parsedServersWith none)
         | some w =>
           match pyInt? w with
           | none => Except.error "servers[0].size_limit_bytes must be an integer"
           | some n =>
             if n ≤ 0 then Except.error "size_limit_bytes must be positive if provided"
             else Except.ok (parsedServersWith (some n))) := by
  have hl : ∀ w : J, load_config (configWithSizeLimit w)
      = (match parseServers [entryA w, entryB] 0 [] [] with
         | .error e => .error e
         | .ok servers =>
           if servers.length < 2 then
             Except.error "Config must define at least two servers to sync"
           else .ok ⟨servers⟩) := fun _ => rfl
  rw [hl]
  cases v with
  | scalar sv =>
    cases sv with
    | null => rfl
    | bool b => cases b <;> rfl
    | int n =>
      have hp : parseServers [entryA (J.scalar (JVal.int n)), entryB] 0 [] []
          = (if n ≤ 0 then .error "size_limit_bytes must be positive if provided"
             else .ok [⟨"a", "u", "k", "al", some n⟩,
                        ⟨"b", "u2", "k2", "al2", none⟩]) := rfl
      rw [hp]
      by_cases h : n ≤ 0 <;> simp [h, pyInt?, parsedServersWith]
    | str s =>
      have hp : parseServers [entryA (J.scalar (JVal.str s)), entryB] 0 [] []
          = (match pyStrToInt? s with
             | none => .error "servers[0].size_limit_bytes must be an integer"
             | some k =>
               if k ≤ 0 then .error "size_limit_bytes must be positive if provided"
               else .ok [⟨"a", "u", "k", "al", some k⟩,
                          ⟨"b", "u2", "k2", "al2", none⟩]) := rfl
      rw [hp]
      cases hps : pyStrToInt? s with
      | none => simp [pyInt?, hps]
      | some k =>
        simp only [pyInt?, hps]
        by_cases h : k ≤ 0 <;> simp [h, parsedServersWith]
  | arr xs => rfl
  | obj kvs => rfl

/-- C9 amended: with `size_limit_bytes` present, `load_config` applies
Python `int(...)`: a null is treated as absent (no limit); a value
`int()` cannot coerce fails with
"servers[0].size_limit_bytes must be an integer"; a coerced value ≤ 0
fails with "size_limit_bytes must be positive if provided"; any value
that coerces to a positive integer — including a numeric string — is
accepted with that coerced limit. -/
theorem C9_amended_size_limit_validation (v : J) :
    (v = J.scalar JVal.null →
      load_config (configWithSizeLimit v) = .ok (parsedServersWith none)) ∧
    (pyInt? v = none → v ≠ J.scalar JVal.null →
      load_config (configWithSizeLimit v)
        = .error "servers[0].size_limit_bytes must be an integer") ∧
    (∀ n : Int, pyInt? v = some n → n ≤ 0 →
      load_config (configWithSizeLimit v)
        = .error "size_limit_bytes must be positive if provided") ∧
    (∀ n : Int, pyInt? v = some n → 0 < n →
      load_config (configWithSizeLimit v) = .ok (parsedServersWith (some n))) := by
  refine ⟨?_, ?_, ?_, ?_⟩
  · rintro rfl; rfl
  · intro hint hnull
    rw [load_config_sizeField]
    cases v with
    | scalar sv =>
      cases sv with
      | null => exact absurd rfl hnull
      | bool b => simp [pyInt?] at hint
      | int n => simp [pyInt?] at hint
      | str s =>
        simp only [pyInt?] at hint
        simp [pyInt?, hint]
    | arr xs => rfl
    | obj kvs => rfl
  · intro n hn hle
    rw [load_config_sizeField]
    cases v with
    | scalar sv =>
      cases sv with
      | null => simp [pyInt?] at hn
      | bool b =>
        cases b with
        | false =>
          simp only [pyInt?, Option.some_inj] at hn
          norm_num at hn
          subst hn
          rfl
        | true =>
          simp only [pyInt?, Option.some_inj] at hn
          norm_num at hn
          subst hn
          norm_num at hle
      | int m =>
        simp only [pyInt?, Option.some_inj] at hn
        subst hn
        simp [pyInt?, if_pos hle]
      | str s =>
        simp only [pyInt?] at hn
        simp [pyInt?, hn, if_pos hle]
    | arr xs => simp [pyInt?] at hn
    | obj kvs => simp [pyInt?] at hn
  · intro n hn hpos
    have hle : ¬ n ≤ 0 := not_le.mpr hpos
    rw [load_config_sizeField]
    cases v with
    | scalar sv =>
      cases sv with
      | null => simp [pyInt?] at hn
      | bool b =>
        cases b with
        | false =>
          simp only [pyInt?, Option.some_inj] at hn
          norm_num at hn
          subst hn
          norm_num at hpos
        | true =>
          simp only [pyInt?, Option.some_inj] at hn
          norm_num at hn
          subst hn
          rfl
      | int m =>
        simp only [pyInt?, Option.some_inj] at hn
        subst hn
        simp [pyInt?, if_neg hle]
      | str s =>
        simp only [pyInt?] at hn
        simp [pyInt?, hn, if_neg hle]
    | arr xs => simp [pyInt?] at hn
    | obj kvs => simp [pyInt?] at hn

/-- Witness for C9 amended: a non-coercible string is rejected with the
specific integer error. -/
theorem C9_amended_size_limit_validation_witness :
    load_config (configWithSizeLimit (J.scalar (JVal.str "abc")))
      = .error "servers[0].size_limit_bytes must be an integer" :=
  (C9_amended_size_limit_validation (J.scalar (JVal.str "abc"))).2.1
    (by decide) (by simp)

/-! ## Generic association-list and fold lemmas -/

section AListLemmas3
variable {α β γ : Type} [DecidableEq α]

theorem alookup_some_mem {m : List (α × β)} {k : α} {v : β}
    (h : alookup m k = some v) : (k, v) ∈ m := by
  induction m with
  | nil => simp [alookup_nil] at h
  | cons kv rest ih =>
    rw [alookup_cons] at h
    by_cases hk : kv.1 = k
    · simp [hk] at h
      have hkv : kv = (k, v) := by
        cases kv
        simp_all
      rw [hkv]
      exact List.mem_cons_self _ _
    · simp [hk] at h
      exact List.mem_cons_of_mem _ (ih h)

theorem alookup_isSome_iff_exists {m : List (α × β)} {k : α} :
    (alookup m k).isSome ↔ ∃ v, alookup m k = some v := by
  cases h : alookup m k <;> simp [h]

theorem mem_ainsert {m : List (α × β)} {k : α} {v : β} {p : α × β}
    (h : p ∈ ainsert m k v) : p ∈ m ∨ p = (k, v) := by
  induction m with
  | nil =>
    simp only [ainsert, List.mem_singleton] at h
    exact Or.inr h
  | cons kv rest ih =>
    by_cases hk : kv.1 = k
    · simp [ainsert, hk] at h
      rcases h with h | h
      · right; simp [h]
      · left; exact List.mem_cons_of_mem _ h
    · simp [ainsert, hk] at h
      rcases h with h | h
      · left; simp [h]
      · rcases ih h with h' | h'
        · left; exact List.mem_cons_of_mem _ h'
        · right; exact h'

/-- Entries of a fold of `ainsert`s: each comes from the accumulator or
from one of the folded elements. -/
theorem mem_foldl_ainsert {g : γ → α} {hf : γ → β} {l : List γ}
    {acc : List (α × β)} {p : α × β}
    (h : p ∈ l.foldl (fun m x => ainsert m (g x) (hf x)) acc) :
    p ∈ acc ∨ ∃ x ∈ l, p = (g x, hf x) := by
  induction l generalizing acc with
  | nil => exact Or.inl h
  | cons y rest ih =>
    rcases ih h with h' | ⟨x, hx, hp⟩
    · rcases mem_ainsert h' with h'' | h''
      · exact Or.inl h''
      · exact Or.inr ⟨y, List.mem_cons_self y rest, h''⟩
    · exact Or.inr ⟨x, List.mem_cons_of_mem _ hx, hp⟩

theorem foldl_ainsert_isSome {g : γ → α} {hf : γ → β} {l : List γ}
    {acc : List (α × β)} {k : α}
    (h : (alookup acc k).isSome) :
    (alookup (l.foldl (fun m x => ainsert m (g x) (hf x)) acc) k).isSome := by
  induction l generalizing acc with
  | nil => exact h
  | cons y rest ih => exact ih (alookup_ainsert_isSome acc (g y) k (hf y) h)

theorem foldl_ainsert_isSome_of_mem {g : γ → α} {f : γ → β} {l : List γ}
    {acc : List (α × β)} {x : γ} (hx : x ∈ l) :
    (alookup (l.foldl (fun m y => ainsert m (g y) (f y)) acc) (g x)).isSome := by
  induction l generalizing acc with
  | nil => simp at hx
  | cons y rest ih =>
    rcases List.mem_cons.mp hx with h | h
    · subst h
      rw [List.foldl_cons]
      have hs : (alookup (ainsert acc (g x) (f x)) (g x)).isSome := by
        rw [alookup_ainsert_self]
        rfl
      exact foldl_ainsert_isSome hs
    · exact ih h

/-- A fold of `ainsert`s over names not equal to `k` leaves the lookup at
`k` unchanged. -/
theorem foldl_ainsert_alookup_of_not_mem {g : γ → α} {hf : γ → β} {l : List γ}
    {acc : List (α × β)} {k : α} (h : ∀ x ∈ l, g x ≠ k) :
    alookup (l.foldl (fun m y => ainsert m (g y) (hf y)) acc) k = alookup acc k := by
  induction l generalizing acc with
  | nil => rfl
  | cons y rest ih =>
    rw [List.foldl_cons, ih (fun x hx => h x (List.mem_cons_of_mem _ hx))]
    exact alookup_ainsert_ne acc (g y) k (hf y) (h y (List.mem_cons_self y rest))

/-- Lookup after an `ainsert` fold with pairwise-distinct names: each
folded element is stored under its own name. -/
theorem alookup_foldl_ainsert_nodup {g : γ → α} {hf : γ → β} {l : List γ}
    {acc : List (α × β)} {x : γ}
    (hnd : (l.map g).Nodup) (hx : x ∈ l) :
    alookup (l.foldl (fun m y => ainsert m (g y) (hf y)) acc) (g x) = some (hf x) := by
  induction l generalizing acc with
  | nil => simp at hx
  | cons y rest ih =>
    rcases List.mem_cons.mp hx with h | h
    · subst h
      have hne : ∀ z ∈ rest, g z ≠ g x := by
        intro z hz
        have hnm := (List.nodup_cons.mp hnd).1
        intro hcon
        exact hnm (hcon ▸ List.mem_map_of_mem g hz)
      rw [List.foldl_cons, foldl_ainsert_alookup_of_not_mem hne, alookup_ainsert_self]
    · rw [List.foldl_cons]
      exact ih (List.nodup_cons.mp hnd).2 h

theorem foldl_ainsert_key_mem {g : γ → α} {hf : γ → β} {l : List γ}
    {acc : List (α × β)} {k : α}
    (h : (alookup (l.foldl (fun m y => ainsert m (g y) (hf y)) acc) k).isSome) :
    (alookup acc k).isSome ∨ ∃ x ∈ l, g x = k := by
  induction l generalizing acc with
  | nil => exact Or.inl h
  | cons y rest ih =>
    rcases ih h with h' | ⟨x, hx, hk⟩
    · by_cases hyk : g y = k
      · exact Or.inr ⟨y, List.mem_cons_self y rest, hyk⟩
      · rw [alookup_ainsert_ne acc (g y) k (hf y) hyk] at h'
        exact Or.inl h'
    · exact Or.inr ⟨x, List.mem_cons_of_mem _ hx, hk⟩

theorem ainsert_ne_nil (m : List (α × β)) (k : α) (v : β) :
    ainsert m k v ≠ [] := by
  cases m with
  | nil => simp [ainsert]
  | cons kv rest =>
    by_cases h : kv.1 = k <;> simp [ainsert, h]

theorem foldl_ainsert_ne_nil {g : γ → α} {hf : γ → β} {l : List γ}
    {acc : List (α × β)} (h : acc ≠ [] ∨ l ≠ []) :
    l.foldl (fun m y => ainsert m (g y) (hf y)) acc ≠ [] := by
  induction l generalizing acc with
  | nil =>
    rcases h with h | h
    · exact h
    · simp at h
  | cons y rest ih =>
    exact ih (Or.inl (ainsert_ne_nil _ _ _))

theorem alookup_map_value {m : List (α × β)} {g : β → γ} {k : α} :
    alookup (m.map (fun p => (p.1, g p.2))) k = (alookup m k).map g := by
  induction m with
  | nil => simp [alookup_nil]
  | cons kv rest ih =>
    by_cases h : kv.1 = k
    · simp [alookup_cons, h]
    · simp [alookup_cons, h, ih]

theorem alookup_append {m m' : List (α × β)} {k : α} :
    alookup (m ++ m') k
      = (match alookup m k with
         | some v => some v
         | none => alookup m' k) := by
  induction m with
  | nil => simp [alookup_nil]
  | cons kv rest ih =>
    by_cases h : kv.1 = k
    · simp [alookup_cons, h]
    · simp [alookup_cons, h, ih]

theorem alookup_asetdefault_cases {m : List (α × β)} {k k' : α} {v x : β}
    (h : alookup (asetdefault m k v) k' = some x) :
    alookup m k' = some x ∨ x = v := by
  unfold asetdefault at h
  split at h
  · exact Or.inl h
  · rw [alookup_append] at h
    cases hm : alookup m k' with
    | some y =>
      rw [hm] at h
      exact Or.inl h
    | none =>
      rw [hm] at h
      rw [alookup_cons] at h
      by_cases hk : k = k'
      · simp [hk] at h
        exact Or.inr h.symm
      · simp [hk, alookup_nil] at h

end AListLemmas3

section AListLemmas4
variable {α β : Type} [DecidableEq α]

theorem mem_akeys_iff {m : List (α × β)} {k : α} :
    k ∈ akeys m ↔ (alookup m k).isSome := by
  induction m with
  | nil => simp [akeys, alookup_nil]
  | cons kv rest ih =>
    rw [show akeys (kv :: rest) = kv.1 :: akeys rest from rfl, List.mem_cons, alookup_cons]
    by_cases h : kv.1 = k
    · simp [h]
    · simp only [if_neg h]
      constructor
      · intro hor
        rcases hor with h1 | h1
        · exact absurd h1.symm h
        · exact ih.mp h1
      · intro hs
        exact Or.inr (ih.mpr hs)

theorem mem_alookup_of_nodupKeys {m : List (α × β)} {p : α × β}
    (hnd : (akeys m).Nodup) (hp : p ∈ m) : alookup m p.1 = some p.2 := by
  induction m with
  | nil => simp at hp
  | cons kv rest ih =>
    have hnd' : kv.1 ∉ akeys rest ∧ (akeys rest).Nodup :=
      List.nodup_cons.mp (show (kv.1 :: akeys rest).Nodup from hnd)
    rcases List.mem_cons.mp hp with h | h
    · subst h
      simp [alookup_cons]
    · have hk : kv.1 ≠ p.1 := by
        intro hcon
        have h1 : p.1 ∈ akeys rest := List.mem_map_of_mem Prod.fst h
        rw [← hcon] at h1
        exact hnd'.1 h1
      rw [alookup_cons, if_neg hk]
      exact ih hnd'.2 h

theorem mem_akeys_ainsert {m : List (α × β)} {k x : α} {v : β}
    (h : x ∈ akeys (ainsert m k v)) : x ∈ akeys m ∨ x = k := by
  induction m with
  | nil =>
    rw [show akeys (ainsert ([] : List (α × β)) k v) = [k] from rfl] at h
    simp at h
    exact Or.inr h
  | cons kv rest ih =>
    by_cases hk : kv.1 = k
    · rw [show ainsert (kv :: rest) k v = (k, v) :: rest from by simp [ainsert, hk],
        show akeys ((k, v) :: rest) = k :: akeys rest from rfl] at h
      rcases List.mem_cons.mp h with h1 | h1
      · exact Or.inr h1
      · left
        rw [show akeys (kv :: rest) = kv.1 :: akeys rest from rfl]
        exact List.mem_cons_of_mem _ h1
    · rw [show ainsert (kv :: rest) k v = kv :: ainsert rest k v from by simp [ainsert, hk],
        show akeys (kv :: ainsert rest k v) = kv.1 :: akeys (ainsert rest k v) from rfl] at h
      rcases List.mem_cons.mp h with h1 | h1
      · left
        rw [show akeys (kv :: rest) = kv.1 :: akeys rest from rfl, h1]
        exact List.mem_cons_self _ _
      · rcases ih h1 with h2 | h2
        · left
          rw [show akeys (kv :: rest) = kv.1 :: akeys rest from rfl]
          exact List.mem_cons_of_mem _ h2
        · exact Or.inr h2

theorem nodup_akeys_ainsert {m : List (α × β)} {k : α} {v : β}
    (h : (akeys m).Nodup) : (akeys (ainsert m k v)).Nodup := by
  induction m with
  | nil =>
    rw [show akeys (ainsert ([] : List (α × β)) k v) = [k] from rfl]
    simp
  | cons kv rest ih =>
    have h1 : kv.1 ∉ akeys rest ∧ (akeys rest).Nodup :=
      List.nodup_cons.mp (show (kv.1 :: akeys rest).Nodup from h)
    by_cases hk : kv.1 = k
    · subst hk
      rw [show ainsert (kv :: rest) kv.1 v = (kv.1, v) :: rest from by simp [ainsert],
        show akeys ((kv.1, v) :: rest) = kv.1 :: akeys rest from rfl]
      exact List.nodup_cons.mpr h1
    · rw [show ainsert (kv :: rest) k v = kv :: ainsert rest k v from by simp [ainsert, hk],
        show akeys (kv :: ainsert rest k v) = kv.1 :: akeys (ainsert rest k v) from rfl]
      refine List.nodup_cons.mpr ⟨?_, ih h1.2⟩
      intro hcon
      rcases mem_akeys_ainsert hcon with h2 | h2
      · exact h1.1 h2
      · exact hk h2

theorem nodupKeys_foldl_ainsert {γ : Type} {g : γ → α} {hf : γ → β}
    {l : List γ} {acc : List (α × β)} (hacc : (akeys acc).Nodup) :
    (akeys (l.foldl (fun m y => ainsert m (g y) (hf y)) acc)).Nodup := by
  induction l generalizing acc with
  | nil => exact hacc
  | cons y rest ih =>
    rw [List.foldl_cons]
    exact ih (nodup_akeys_ainsert hacc)

end AListLemmas4

/-! ## Index, union and sort lemmas -/

theorem Asset_truthy_of_getv {a : Asset} {k : String}
    (h : (Asset.getv a k).truthy = true) : Asset.truthy a = true := by
  cases a with
  | nil => simp [Asset.getv, List.find?, JVal.truthy] at h
  | cons kv rest => simp [Asset.truthy]

/-- Every asset stored by the indexing fold is truthy (its dict holds a
truthy checksum entry, hence is non-empty). -/
theorem foldl_index_step_truthy {assets : List Asset} {acc : CkMap × Nat}
    (hacc : ∀ ck a, alookup acc.1 ck = some a → Asset.truthy a = true)
    {ck : JVal} {a : Asset}
    (h : alookup (assets.foldl
        (fun st x =>
          let c := Asset.getv x "checksum"
          if c.truthy then (asetdefault st.1 c x, st.2) else (st.1, st.2 + 1))
        acc).1 ck = some a) :
    Asset.truthy a = true := by
  induction assets generalizing acc with
  | nil => exact hacc _ _ h
  | cons x rest ih =>
    rw [List.foldl_cons] at h
    refine ih ?_ h
    intro ck' a' h'
    by_cases hc : (Asset.getv x "checksum").truthy
    · simp only [hc, if_true] at h'
      rcases alookup_asetdefault_cases h' with h'' | h''
      · exact hacc _ _ h''
      · exact h'' ▸ Asset_truthy_of_getv hc
    · simp only [hc, if_false] at h'
      exact hacc _ _ h'

theorem indexServer_stored_truthy {assets : List Asset} {ck : JVal} {a : Asset}
    (h : alookup (indexServer assets).1 ck = some a) : Asset.truthy a = true := by
  unfold indexServer at h
  exact foldl_index_step_truthy (by intro ck' a' h'; simp [alookup_nil] at h') h

/-- First component of `index_assets` as a plain single-map fold. -/
theorem index_assets_fst (l : List (String × List Asset)) :
    (index_assets l).1
      = l.foldl (fun m p => ainsert m p.1 (indexServer p.2).1) [] := by
  suffices hgen : ∀ (acc : Index × List (String × Nat)),
      (l.foldl (fun acc p =>
        let r := indexServer p.2
        (ainsert acc.1 p.1 r.1, ainsert acc.2 p.1 r.2)) acc).1
        = l.foldl (fun m p => ainsert m p.1 (indexServer p.2).1) acc.1 by
    exact hgen ([], [])
  intro acc
  induction l generalizing acc with
  | nil => rfl
  | cons p rest ih => exact ih _

/-- Every inner-map asset of the sync index is truthy. -/
theorem syncIndex0_stored_truthy {config : SyncConfig} {fetch : String → List Asset}
    {n : String} {m : CkMap} {ck : JVal} {a : Asset}
    (hm : alookup (syncIndex0 config fetch) n = some m)
    (ha : alookup m ck = some a) : Asset.truthy a = true := by
  rw [show syncIndex0 config fetch = (index_assets (fetchedAssets config fetch)).1 from rfl,
    index_assets_fst] at hm
  rcases mem_foldl_ainsert (alookup_some_mem hm) with h | ⟨p, _, hp⟩
  · simp at h
  · have hm2 : m = (indexServer p.2).1 := congrArg Prod.snd hp
    exact indexServer_stored_truthy (hm2 ▸ ha)

/-- The sync index has one entry per configured server. -/
theorem syncIndex0_isSome_of_server {config : SyncConfig}
    {fetch : String → List Asset} {s : ServerConfig} (hs : s ∈ config.servers) :
    (alookup (syncIndex0 config fetch) s.name).isSome := by
  have h1 : (alookup (fetchedAssets config fetch) s.name).isSome :=
    foldl_ainsert_isSome_of_mem (g := ServerConfig.name)
      (f := fun s' => fetch s'.name) hs
  obtain ⟨v, hv⟩ := alookup_isSome_iff_exists.mp h1
  have hmem : (s.name, v) ∈ fetchedAssets config fetch := alookup_some_mem hv
  have h2 : (alookup ((fetchedAssets config fetch).foldl
      (fun m p => ainsert m p.1 (indexServer p.2).1) []) s.name).isSome :=
    foldl_ainsert_isSome_of_mem (g := Prod.fst)
      (f := fun p : String × List Asset => (indexServer p.2).1) hmem
  rw [show syncIndex0 config fetch = (index_assets (fetchedAssets config fetch)).1 from rfl,
    index_assets_fst]
  exact h2

/-- Every key of the sync index is the name of a configured server. -/
theorem syncIndex0_key_is_server {config : SyncConfig}
    {fetch : String → List Asset} {k : String}
    (h : (alookup (syncIndex0 config fetch) k).isSome) :
    ∃ s ∈ config.servers, s.name = k := by
  rw [show syncIndex0 config fetch = (index_assets (fetchedAssets config fetch)).1 from rfl,
    index_assets_fst] at h
  rcases foldl_ainsert_key_mem h with h1 | ⟨p, hp, hk⟩
  · simp [alookup_nil] at h1
  · rcases mem_foldl_ainsert (show p ∈ (config.servers.foldl
        (fun m s => ainsert m s.name (fetch s.name)) []) from hp) with h2 | ⟨s, hs, hps⟩
    · simp at h2
    · refine ⟨s, hs, ?_⟩
      rw [← hk, hps]

/-- The sync index has pairwise-distinct keys. -/
theorem syncIndex0_nodupKeys (config : SyncConfig) (fetch : String → List Asset) :
    (akeys (syncIndex0 config fetch)).Nodup := by
  rw [show syncIndex0 config fetch = (index_assets (fetchedAssets config fetch)).1 from rfl,
    index_assets_fst]
  exact nodupKeys_foldl_ainsert (by simp [akeys])

theorem mem_dedupAppend {acc ks : List JVal} {ck : JVal}
    (h : ck ∈ dedupAppend acc ks) : ck ∈ acc ∨ ck ∈ ks := by
  induction ks generalizing acc with
  | nil => exact Or.inl h
  | cons k rest ih =>
    rw [show dedupAppend acc (k :: rest)
      = dedupAppend (if k ∈ acc then acc else acc ++ [k]) rest from rfl] at h
    rcases ih h with h' | h'
    · by_cases hk : k ∈ acc
      · rw [if_pos hk] at h'
        exact Or.inl h'
      · rw [if_neg hk] at h'
        rcases List.mem_append.mp h' with h'' | h''
        · exact Or.inl h''
        · simp at h''
          exact Or.inr (h'' ▸ List.mem_cons_self k rest)
    · exact Or.inr (List.mem_cons_of_mem _ h')

theorem mem_unionKeys_exists {index : Index} {ck : JVal}
    (h : ck ∈ unionKeys index) : ∃ p ∈ index, ck ∈ akeys p.2 := by
  suffices hgen : ∀ (acc : List JVal),
      ck ∈ index.foldl (fun a p => dedupAppend a (p.2.map (·.1))) acc →
      ck ∈ acc ∨ ∃ p ∈ index, ck ∈ akeys p.2 by
    rcases hgen [] h with h' | h'
    · simp at h'
    · exact h'
  intro acc h'
  clear h
  induction index generalizing acc with
  | nil => exact Or.inl h'
  | cons p rest ih =>
    rw [List.foldl_cons] at h'
    rcases ih _ h' with h'' | ⟨q, hq, hck⟩
    · rcases mem_dedupAppend h'' with h3 | h3
      · exact Or.inl h3
      · exact Or.inr ⟨p, List.mem_cons_self p rest, h3⟩
    · exact Or.inr ⟨q, List.mem_cons_of_mem _ hq, hck⟩

theorem insertJ_perm (x : JVal) (l : List JVal) : (insertJ x l).Perm (x :: l) := by
  induction l with
  | nil => exact List.Perm.refl _
  | cons y ys ih =>
    by_cases h : jleb x y
    · simp [insertJ, h]
    · rw [show insertJ x (y :: ys) = if jleb x y then x :: y :: ys else y :: insertJ x ys from rfl,
        if_neg h]
      exact (ih.cons y).trans (List.Perm.swap x y ys)

theorem sortJ_perm (l : List JVal) : (sortJ l).Perm l := by
  induction l with
  | nil => exact List.Perm.refl _
  | cons x xs ih =>
    rw [show sortJ (x :: xs) = insertJ x (sortJ xs) from rfl]
    exact (insertJ_perm x (sortJ xs)).trans (ih.cons x)

theorem mem_sortJ {l : List JVal} {ck : JVal} : ck ∈ sortJ l ↔ ck ∈ l :=
  (sortJ_perm l).mem_iff

theorem sortJ_filter_length (l : List JVal) (p : JVal → Bool) :
    ((sortJ l).filter p).length = (l.filter p).length :=
  ((sortJ_perm l).filter p).length_eq

/-! ## Source selection and task generation -/

theorem select_source_cons (t : ServerConfig) (rest : List ServerConfig)
    (index : Index) (ck : JVal) :
    select_source (t :: rest) index ck
      = (match alookup ((alookup index t.name).getD []) ck with
         | some a =>
           if Asset.truthy a then some (t, a) else select_source rest index ck
         | none => select_source rest index ck) := rfl

theorem select_source_isSome {servers : List ServerConfig} {index : Index}
    {ck : JVal} {s : ServerConfig} {a : Asset} (hs : s ∈ servers)
    (ha : alookup ((alookup index s.name).getD []) ck = some a)
    (ht : Asset.truthy a = true) :
    (select_source servers index ck).isSome := by
  induction servers with
  | nil => simp at hs
  | cons t rest ih =>
    rw [select_source_cons]
    cases halt : alookup ((alookup index t.name).getD []) ck with
    | some b =>
      by_cases htr : Asset.truthy b
      · simp [htr]
      · simp only [htr, if_false]
        rcases List.mem_cons.mp hs with h | h
        · subst h
          rw [ha] at halt
          exact absurd (Option.some_inj.mp halt ▸ ht) htr
        · exact ih h
    | none =>
      rcases List.mem_cons.mp hs with h | h
      · subst h
        rw [ha] at halt
        exact absurd halt (by simp)
      · exact ih h

theorem select_source_spec {servers : List ServerConfig} {index : Index}
    {ck : JVal} {src : ServerConfig} {a : Asset}
    (h : select_source servers index ck = some (src, a)) :
    src ∈ servers ∧ alookup ((alookup index src.name).getD []) ck = some a ∧
      Asset.truthy a = true := by
  induction servers with
  | nil => simp [select_source] at h
  | cons t rest ih =>
    rw [select_source_cons] at h
    cases halt : alookup ((alookup index t.name).getD []) ck with
    | some b =>
      rw [halt] at h
      by_cases htr : Asset.truthy b
      · simp only [htr, if_true, Option.some_inj] at h
        have h1 : t = src := congrArg Prod.fst h
        have h2 : b = a := congrArg Prod.snd h
        subst h1
        subst h2
        exact ⟨List.mem_cons_self _ _, halt, htr⟩
      · simp only [htr, if_false] at h
        obtain ⟨h1, h2, h3⟩ := ih h
        exact ⟨List.mem_cons_of_mem _ h1, h2, h3⟩
    | none =>
      rw [halt] at h
      obtain ⟨h1, h2, h3⟩ := ih h
      exact ⟨List.mem_cons_of_mem _ h1, h2, h3⟩

/-- Core of C10: every checksum of the sorted union has a source — some
configured server whose inner map stores a truthy asset under it. -/
theorem syncSelect_isSome {config : SyncConfig} {fetch : String → List Asset}
    {ck : JVal} (hck : ck ∈ syncAllChecksums config fetch) :
    (select_source config.servers (syncIndex0 config fetch) ck).isSome := by
  have h1 : ck ∈ unionKeys (syncIndex0 config fetch) := mem_sortJ.mp hck
  rcases mem_unionKeys_exists h1 with ⟨p, hp, hkey⟩
  have hl : alookup (syncIndex0 config fetch) p.1 = some p.2 :=
    mem_alookup_of_nodupKeys (syncIndex0_nodupKeys config fetch) hp
  rcases syncIndex0_key_is_server (k := p.1) (by rw [hl]; rfl) with ⟨s, hs, hname⟩
  obtain ⟨a, ha⟩ := alookup_isSome_iff_exists.mp (mem_akeys_iff.mp hkey)
  have htr : Asset.truthy a = true := syncIndex0_stored_truthy hl ha
  refine select_source_isSome hs ?_ htr
  rw [hname, hl]
  exact ha

/-- Accumulator form of the task-generation fold. -/
theorem genTasks_acc (servers : List ServerConfig) (index : Index)
    (cks : List JVal) :
    ∀ (t0 : List SyncTask) (e0 : List String),
      cks.foldl
        (fun acc ck =>
          match select_source servers index ck with
          | none => (acc.1, acc.2 ++ [noSourceMsg ck])
          | some (src, a) => (acc.1 ++ tasksForChecksum servers index ck src a, acc.2))
        (t0, e0)
      = (t0 ++ (genTasks servers index cks).1, e0 ++ (genTasks servers index cks).2) := by
  induction cks with
  | nil =>
    intro t0 e0
    simp [genTasks]
  | cons ck rest ih =>
    intro t0 e0
    rw [List.foldl_cons]
    rw [show genTasks servers index (ck :: rest)
      = (ck :: rest).foldl
          (fun acc ck =>
            match select_source servers index ck with
            | none => (acc.1, acc.2 ++ [noSourceMsg ck])
            | some (src, a) => (acc.1 ++ tasksForChecksum servers index ck src a, acc.2))
          ([], []) from rfl]
    rw [List.foldl_cons]
    cases hsel : select_source servers index ck with
    | none =>
      simp only [hsel]
      rw [ih, ih]
      simp
    | some pa =>
      obtain ⟨src, a⟩ := pa
      simp only [hsel]
      rw [ih, ih]
      simp

/-- One step of task generation. -/
theorem genTasks_cons (servers : List ServerConfig) (index : Index)
    (ck : JVal) (cks : List JVal) :
    genTasks servers index (ck :: cks)
      = (match select_source servers index ck with
         | none =>
           ((genTasks servers index cks).1,
             noSourceMsg ck :: (genTasks servers index cks).2)
         | some (src, a) =>
           (tasksForChecksum servers index ck src a ++ (genTasks servers index cks).1,
             (genTasks servers index cks).2)) := by
  rw [show genTasks servers index (ck :: cks)
    = (ck :: cks).foldl
        (fun acc ck =>
          match select_source servers index ck with
          | none => (acc.1, acc.2 ++ [noSourceMsg ck])
          | some (src, a) => (acc.1 ++ tasksForChecksum servers index ck src a, acc.2))
        ([], []) from rfl]
  rw [List.foldl_cons]
  cases hsel : select_source servers index ck with
  | none =>
    simp only [hsel]
    rw [genTasks_acc]
    simp
  | some pa =>
    obtain ⟨src, a⟩ := pa
    simp only [hsel]
    rw [genTasks_acc]
    simp

/-- When every checksum has a source, no no-source error is emitted. -/
theorem genTasks_errors_nil {servers : List ServerConfig} {index : Index}
    {cks : List JVal}
    (h : ∀ ck ∈ cks, (select_source servers index ck).isSome) :
    (genTasks servers index cks).2 = [] := by
  induction cks with
  | nil => rfl
  | cons ck rest ih =>
    rw [genTasks_cons]
    cases hsel : select_source servers index ck with
    | none =>
      have := h ck (List.mem_cons_self _ _)
      rw [hsel] at this
      simp at this
    | some pa =>
      obtain ⟨src, a⟩ := pa
      simp only
      exact ih (fun c hc => h c (List.mem_cons_of_mem _ hc))

/-- Membership in the generated task list. -/
theorem mem_genTasks {servers : List ServerConfig} {index : Index}
    {cks : List JVal} {t : SyncTask} :
    t ∈ (genTasks servers index cks).1
      ↔ ∃ ck ∈ cks, ∃ src a, select_source servers index ck = some (src, a) ∧
          t ∈ tasksForChecksum servers index ck src a := by
  induction cks with
  | nil => simp [genTasks]
  | cons ck rest ih =>
    rw [genTasks_cons]
    cases hsel : select_source servers index ck with
    | none =>
      simp only
      rw [ih]
      constructor
      · rintro ⟨c, hc, src, a, hs, hmem⟩
        exact ⟨c, List.mem_cons_of_mem _ hc, src, a, hs, hmem⟩
      · rintro ⟨c, hc, src, a, hs, hmem⟩
        rcases List.mem_cons.mp hc with h | h
        · subst h
          rw [hsel] at hs
          cases hs
        · exact ⟨c, h, src, a, hs, hmem⟩
    | some pa =>
      obtain ⟨src0, a0⟩ := pa
      simp only [List.mem_append]
      rw [ih]
      constructor
      · rintro (hmem | ⟨c, hc, src, a, hs, hmem⟩)
        · exact ⟨ck, List.mem_cons_self _ _, src0, a0, hsel, hmem⟩
        · exact ⟨c, List.mem_cons_of_mem _ hc, src, a, hs, hmem⟩
      · rintro ⟨c, hc, src, a, hs, hmem⟩
        rcases List.mem_cons.mp hc with h | h
        · subst h
          rw [hsel] at hs
          have h1 : src0 = src ∧ a0 = a := by
            have h2 := Option.some_inj.mp hs
            exact ⟨congrArg Prod.fst h2, congrArg Prod.snd h2⟩
          obtain ⟨rfl, rfl⟩ := h1
          exact Or.inl hmem
        · exact Or.inr ⟨c, h, src, a, hs, hmem⟩

/-- Membership in the per-checksum target loop. -/
theorem mem_tasksForChecksum {servers : List ServerConfig} {index : Index}
    {ck : JVal} {src : ServerConfig} {a : Asset} {t : SyncTask} :
    t ∈ tasksForChecksum servers index ck src a
      ↔ ∃ tgt ∈ servers, tgt.name ≠ src.name ∧
          ckContainsKey ((alookup index tgt.name).getD []) ck = false ∧
          t = ⟨ck, src, a, tgt⟩ := by
  unfold tasksForChecksum
  rw [List.mem_filterMap]
  constructor
  · rintro ⟨tgt, htgt, hf⟩
    by_cases h1 : tgt.name = src.name
    · simp [h1] at hf
    · by_cases h2 : ckContainsKey ((alookup index tgt.name).getD []) ck
      · simp [h1, h2] at hf
      · simp only [h1, if_false, h2, if_neg, Bool.false_eq_true, Option.some_inj] at hf
        exact ⟨tgt, htgt, h1, by simpa using h2, hf.symm⟩
  · rintro ⟨tgt, htgt, h1, h2, rfl⟩
    refine ⟨tgt, htgt, ?_⟩
    simp [h1, h2]

/-! ## Error-list behaviour of task processing -/

/-- One task either leaves `summary.errors` alone or appends exactly one
formatted failure message. -/
theorem process_task_errors_sub (dry : Bool) (st : RunState) (t : SyncTask)
    (env : RemoteEnv) :
    (process_task dry st t env).summary.errors = st.summary.errors ∨
    ∃ m, (process_task dry st t env).summary.errors
      = st.summary.errors ++ [failMsg t.checksum t.source.name t.target.name m] := by
  unfold process_task
  by_cases hd : dry
  · simp only [hd, if_true]
    exact Or.inl rfl
  · simp only [hd, if_false]
    cases hr : (ensure_asset_on_target t.checksum t.source t.source_asset t.target env).1 with
    | ok b => cases b <;> exact Or.inl rfl
    | error e =>
      cases e with
      | oversize => exact Or.inl rfl
      | failure m => exact Or.inr ⟨m, rfl⟩

/-- Every error string present after running tasks was present initially
or is a formatted per-task failure message. -/
theorem runTasks_errors_mem {dry : Bool} {st : RunState}
    {pairs : List (SyncTask × RemoteEnv)} {e : String}
    (h : e ∈ (runTasks dry st pairs).summary.errors) :
    e ∈ st.summary.errors ∨ ∃ c sn tn m, e = failMsg c sn tn m := by
  induction pairs generalizing st with
  | nil => exact Or.inl h
  | cons p rest ih =>
    rw [show runTasks dry st (p :: rest)
      = runTasks dry (process_task dry st p.1 p.2) rest from rfl] at h
    rcases ih h with h1 | h1
    · rcases process_task_errors_sub dry st p.1 p.2 with h2 | ⟨m, h2⟩
      · rw [h2] at h1
        exact Or.inl h1
      · rw [h2] at h1
        rcases List.mem_append.mp h1 with h3 | h3
        · exact Or.inl h3
        · simp at h3
          exact Or.inr ⟨p.1.checksum, p.1.source.name, p.1.target.name, m, h3⟩
    · exact Or.inr h1

/-- A per-task failure message is never a no-source message: the strings
differ in their first character. -/
theorem failMsg_ne_noSourceMsg (c c' : JVal) (sn tn m : String) :
    failMsg c sn tn m ≠ noSourceMsg c' := by
  intro hcon
  unfold failMsg noSourceMsg at hcon
  generalize JVal.pyStr c = s1 at hcon
  generalize JVal.pyStr c' = s2 at hcon
  obtain ⟨l1⟩ := s1
  obtain ⟨l2⟩ := s2
  obtain ⟨ln⟩ := sn
  obtain ⟨lt⟩ := tn
  obtain ⟨lm⟩ := m
  have h2 : (some 'F' : Option Char) = some 'N' :=
    (congrArg (fun s => s.data.head?) hcon :)
  exact absurd (Option.some.inj h2) (by decide)

/-! ## C10 — the no-source branch is unreachable -/

/-- C10: for every configuration and fetched listing, every checksum of
the sorted union is held by some configured server as a truthy asset, so
`_select_source` always succeeds, task generation emits no
"No source available" error, and the final `summary.errors` of any run —
dry or not, under any remote oracle — contains no no-source message
(its entries are all per-task failure messages). -/
theorem C10_no_source_unreachable (config : SyncConfig)
    (fetch : String → List Asset) (dry : Bool) (envs : Nat → RemoteEnv) :
    (∀ ck ∈ syncAllChecksums config fetch,
      (select_source config.servers (syncIndex0 config fetch) ck).isSome) ∧
    (syncGen config fetch).2 = [] ∧
    ∀ e ∈ (sync_assets config fetch dry envs).1.errors, ¬ ∃ ck, e = noSourceMsg ck := by
  refine ⟨fun ck hck => syncSelect_isSome hck, ?_, ?_⟩
  · exact genTasks_errors_nil (fun ck hck => syncSelect_isSome hck)
  · intro e he hcon
    obtain ⟨ck, rfl⟩ := hcon
    have he2 : noSourceMsg ck ∈ (runTasks dry (syncInitState config fetch)
        (withEnvs (syncTasks config fetch) envs)).summary.errors := he
    rcases runTasks_errors_mem he2 with h2 | ⟨c, sn, tn, m, h2⟩
    · have h4 : (syncGen config fetch).2 = [] :=
        genTasks_errors_nil (fun c hc => syncSelect_isSome hc)
      rw [show (syncInitState config fetch).summary.errors
        = (syncGen config fetch).2 from rfl, h4] at h2
      simp at h2
    · exact failMsg_ne_noSourceMsg c ck sn tn m h2.symm

/-- Witness for C10 at the demo configuration and its union checksum. -/
theorem C10_no_source_unreachable_witness :
    (select_source demoConfig.servers (syncIndex0 demoConfig demoFetch)
      (JVal.str "chk1")).isSome ∧
    (syncGen demoConfig demoFetch).2 = [] :=
  ⟨(C10_no_source_unreachable demoConfig demoFetch true (fun _ => {})).1
      (JVal.str "chk1") (by decide),
    (C10_no_source_unreachable demoConfig demoFetch true (fun _ => {})).2.1⟩

/-! ## Index monotonicity and dry-run convergence (C2) -/

theorem ckContains_register {st : RunState} {tname : String} {ck : JVal}
    {a : Asset} {n : String} {c : JVal}
    (h : ckContains st.index n c = true) :
    ckContains (register_completion st tname ck a).index n c = true := by
  unfold ckContains ckContainsKey at h ⊢
  unfold register_completion
  by_cases hn : tname = n
  · subst hn
    simp only [alookup_ainsert_self, Option.getD_some]
    exact alookup_ainsert_isSome _ ck c a h
  · simp only [alookup_ainsert_ne _ _ _ _ hn]
    exact h

theorem ckContains_register_self (st : RunState) (tname : String) (ck : JVal)
    (a : Asset) :
    ckContains (register_completion st tname ck a).index tname ck = true := by
  unfold ckContains ckContainsKey register_completion
  simp only [alookup_ainsert_self, Option.getD_some]
  rfl

theorem process_task_ckContains_mono {dry : Bool} {st : RunState} {t : SyncTask}
    {env : RemoteEnv} {n : String} {c : JVal}
    (h : ckContains st.index n c = true) :
    ckContains (process_task dry st t env).index n c = true := by
  unfold process_task
  by_cases hd : dry
  · simp only [hd, if_true]
    exact ckContains_register h
  · simp only [hd, if_false]
    cases hr : (ensure_asset_on_target t.checksum t.source t.source_asset t.target env).1 with
    | ok b => cases b <;> exact ckContains_register h
    | error e => cases e <;> exact h

theorem process_task_registers_dry (st : RunState) (t : SyncTask) (env : RemoteEnv) :
    ckContains (process_task true st t env).index t.target.name t.checksum = true := by
  unfold process_task
  simp only [if_true]
  exact ckContains_register_self _ _ _ _

theorem runTasks_ckContains_mono {dry : Bool} {st : RunState}
    {pairs : List (SyncTask × RemoteEnv)} {n : String} {c : JVal}
    (h : ckContains st.index n c = true) :
    ckContains (runTasks dry st pairs).index n c = true := by
  induction pairs generalizing st with
  | nil => exact h
  | cons p rest ih =>
    rw [show runTasks dry st (p :: rest)
      = runTasks dry (process_task dry st p.1 p.2) rest from rfl]
    exact ih (process_task_ckContains_mono h)

theorem runTasks_dry_registers {st : RunState}
    {pairs : List (SyncTask × RemoteEnv)} {t : SyncTask} {e : RemoteEnv}
    (hmem : (t, e) ∈ pairs) :
    ckContains (runTasks true st pairs).index t.target.name t.checksum = true := by
  induction pairs generalizing st with
  | nil => simp at hmem
  | cons p rest ih =>
    rw [show runTasks true st (p :: rest)
      = runTasks true (process_task true st p.1 p.2) rest from rfl]
    rcases List.mem_cons.mp hmem with h | h
    · have hp : p.1 = t := by rw [← h]
      rw [← hp]
      exact runTasks_ckContains_mono (process_task_registers_dry st p.1 p.2)
    · exact ih h

theorem mem_withEnvs_of_mem {tasks : List SyncTask} {envs : Nat → RemoteEnv}
    {t : SyncTask} (h : t ∈ tasks) :
    ∃ e, (t, e) ∈ withEnvs tasks envs := by
  obtain ⟨i, hi, hgi⟩ := List.mem_iff_getElem.mp h
  refine ⟨envs i, ?_⟩
  unfold withEnvs
  refine List.mem_map.mpr ⟨(i, t), ?_, rfl⟩
  have hlen : i < tasks.enum.length := by simpa [List.enum_length] using hi
  have hval : tasks.enum[i] = (i, t) := by
    rw [List.getElem_enum]
    rw [hgi]
  exact hval ▸ List.getElem_mem hlen

/-- C2: after a dry run — all servers listed, every indexed asset
necessarily a non-empty (truthy) dict — every checksum of the union is
present in every configured server's inner index map: each missing
(checksum, target) pair generated a task, and every dry task registers
the checksum on its target in place. -/
theorem C2_dry_run_union_convergence (config : SyncConfig)
    (fetch : String → List Asset) (envs : Nat → RemoteEnv) :
    ∀ s ∈ config.servers, ∀ ck ∈ syncAllChecksums config fetch,
      ckContains (sync_assets config fetch true envs).2 s.name ck = true := by
  intro s hs ck hck
  by_cases h0 : ckContains (syncIndex0 config fetch) s.name ck = true
  · exact runTasks_ckContains_mono h0
  · obtain ⟨pa, hsel⟩ := Option.isSome_iff_exists.mp (syncSelect_isSome hck)
    obtain ⟨src, a⟩ := pa
    have hspec := select_source_spec hsel
    have hne : s.name ≠ src.name := by
      intro hcon
      apply h0
      unfold ckContains ckContainsKey
      rw [hcon, hspec.2.1]
      rfl
    have htask : (⟨ck, src, a, s⟩ : SyncTask) ∈ syncTasks config fetch := by
      rw [show syncTasks config fetch
        = (genTasks config.servers (syncIndex0 config fetch)
            (syncAllChecksums config fetch)).1 from rfl]
      rw [mem_genTasks]
      refine ⟨ck, hck, src, a, hsel, ?_⟩
      rw [mem_tasksForChecksum]
      refine ⟨s, hs, hne, ?_, rfl⟩
      unfold ckContains at h0
      simpa using h0
    obtain ⟨e, he⟩ := @mem_withEnvs_of_mem _ envs _ htask
    exact runTasks_dry_registers he

/-- Witness for C2: in the demo dry run the secondary server's index
gains checksum chk1. -/
theorem C2_dry_run_union_convergence_witness :
    ckContains (sync_assets demoConfig demoFetch true (fun _ => {})).2
      "secondary" (JVal.str "chk1") = true :=
  C2_dry_run_union_convergence demoConfig demoFetch (fun _ => {})
    srvSecondary (by decide) (JVal.str "chk1") (by decide)

/-! ## Per-server counter sums (C4) -/

theorem sumPerServer_amodify_invariant {ps : List (String × ServerStats)}
    {n : String} {g : ServerStats → ServerStats} {f : ServerStats → Nat}
    (hg : ∀ s, f (g s) = f s) :
    sumPerServer (amodify ps n g) f = sumPerServer ps f := by
  induction ps with
  | nil => rfl
  | cons kv rest ih =>
    by_cases hk : kv.1 = n
    · rw [show amodify (kv :: rest) n g = (kv.1, g kv.2) :: rest from by simp [amodify, hk]]
      unfold sumPerServer
      simp [hg]
    · rw [show amodify (kv :: rest) n g = kv :: amodify rest n g from by simp [amodify, hk]]
      unfold sumPerServer at ih ⊢
      simp only [List.map_cons, List.sum_cons]
      rw [ih]

theorem sumPerServer_amodify_add {ps : List (String × ServerStats)}
    {n : String} {g : ServerStats → ServerStats} {f : ServerStats → Nat}
    (hg : ∀ s, f (g s) = f s + 1) (hdom : (alookup ps n).isSome) :
    sumPerServer (amodify ps n g) f = sumPerServer ps f + 1 := by
  induction ps with
  | nil => simp [alookup_nil] at hdom
  | cons kv rest ih =>
    by_cases hk : kv.1 = n
    · rw [show amodify (kv :: rest) n g = (kv.1, g kv.2) :: rest from by simp [amodify, hk]]
      unfold sumPerServer
      simp only [List.map_cons, List.sum_cons, hg]
      omega
    · rw [alookup_cons, if_neg hk] at hdom
      rw [show amodify (kv :: rest) n g = kv :: amodify rest n g from by simp [amodify, hk]]
      unfold sumPerServer at ih ⊢
      simp only [List.map_cons, List.sum_cons]
      rw [ih hdom]
      omega

theorem sumPerServer_zero {ps : List (String × ServerStats)} {f : ServerStats → Nat}
    (h : ∀ p ∈ ps, f p.2 = 0) : sumPerServer ps f = 0 := by
  induction ps with
  | nil => rfl
  | cons kv rest ih =>
    unfold sumPerServer at ih ⊢
    simp only [List.map_cons, List.sum_cons]
    rw [h kv (List.mem_cons_self _ _), ih (fun p hp => h p (List.mem_cons_of_mem _ hp))]

/-- The domain of `per_server` is stable under one task step. -/
theorem process_task_perServer_isSome {dry : Bool} {st : RunState} {t : SyncTask}
    {env : RemoteEnv} {k : String}
    (h : (alookup st.summary.per_server k).isSome) :
    (alookup (process_task dry st t env).summary.per_server k).isSome := by
  unfold process_task
  by_cases hd : dry
  · simp only [hd, if_true]
    exact alookup_amodify_isSome _ _ _ _ h
  · simp only [hd, if_false]
    cases hr : (ensure_asset_on_target t.checksum t.source t.source_asset t.target env).1 with
    | ok b =>
      cases b <;>
        exact alookup_amodify_isSome _ _ _ _ (alookup_amodify_isSome _ _ _ _ h)
    | error e =>
      cases e with
      | oversize => exact alookup_amodify_isSome _ _ _ _ h
      | failure m => exact h

/-- One non-dry step: the three-bucket sum plus the error count advances
by exactly one, and the per-server copied+linked sum advances exactly as
much as the global copied+linked counters. -/
theorem process_step_sums {st : RunState} {t : SyncTask} {env : RemoteEnv}
    (hdom : (alookup st.summary.per_server t.target.name).isSome) :
    (sumPerServer (process_task false st t env).summary.per_server
        (fun s => s.copied + s.linked + s.oversized)
      + (process_task false st t env).summary.errors.length
      = sumPerServer st.summary.per_server
          (fun s => s.copied + s.linked + s.oversized)
        + st.summary.errors.length + 1) ∧
    (sumPerServer (process_task false st t env).summary.per_server
        (fun s => s.copied + s.linked)
      + (st.summary.copied + st.summary.linked)
      = sumPerServer st.summary.per_server (fun s => s.copied + s.linked)
        + ((process_task false st t env).summary.copied
          + (process_task false st t env).summary.linked)) := by
  rw [process_task_false_cases]
  cases ho : taskOutcome t env with
  | linked =>
    simp only [applyOutcome, register_completion]
    constructor
    · rw [sumPerServer_amodify_invariant (by intro s; by_cases h : s.remaining > 0 <;> simp [h]),
        sumPerServer_amodify_add (by intro s; simp; omega) hdom]
      omega
    · rw [sumPerServer_amodify_invariant (f := fun s => s.copied + s.linked)
        (by intro s; by_cases h : s.remaining > 0 <;> simp [h]),
        sumPerServer_amodify_add (f := fun s => s.copied + s.linked)
          (by intro s; simp; omega) hdom]
      omega
  | copied =>
    simp only [applyOutcome, register_completion]
    constructor
    · rw [sumPerServer_amodify_invariant (by intro s; by_cases h : s.remaining > 0 <;> simp [h]),
        sumPerServer_amodify_add (by intro s; simp; omega) hdom]
      omega
    · rw [sumPerServer_amodify_invariant (f := fun s => s.copied + s.linked)
        (by intro s; by_cases h : s.remaining > 0 <;> simp [h]),
        sumPerServer_amodify_add (f := fun s => s.copied + s.linked)
          (by intro s; simp; omega) hdom]
      omega
  | oversize =>
    simp only [applyOutcome, bumpOversized]
    constructor
    · rw [sumPerServer_amodify_add (by intro s; simp; omega) hdom]
      omega
    · rw [sumPerServer_amodify_invariant (f := fun s => s.copied + s.linked)
        (by intro s; simp)]
  | failed m =>
    simp only [applyOutcome]
    constructor
    · simp only [List.length_append, List.length_singleton]
      omega
    · trivial

/-- Fold form of C4's two conservation equalities. -/
theorem runTasks_conservation {pairs : List (SyncTask × RemoteEnv)} {st : RunState}
    (hdom : ∀ p ∈ pairs, (alookup st.summary.per_server p.1.target.name).isSome) :
    (sumPerServer (runTasks false st pairs).summary.per_server
        (fun s => s.copied + s.linked + s.oversized)
      + (runTasks false st pairs).summary.errors.length
      = sumPerServer st.summary.per_server
          (fun s => s.copied + s.linked + s.oversized)
        + st.summary.errors.length + pairs.length) ∧
    (sumPerServer (runTasks false st pairs).summary.per_server
        (fun s => s.copied + s.linked)
      + (st.summary.copied + st.summary.linked)
      = sumPerServer st.summary.per_server (fun s => s.copied + s.linked)
        + ((runTasks false st pairs).summary.copied
          + (runTasks false st pairs).summary.linked)) := by
  induction pairs generalizing st with
  | nil =>
    constructor
    · rw [show runTasks false st [] = st from rfl]
      simp
    · rw [show runTasks false st [] = st from rfl]
  | cons p rest ih =>
    have h1 := @process_step_sums st p.1 p.2
      (hdom p (List.mem_cons_self _ _))
    have hdom' : ∀ q ∈ rest,
        (alookup (process_task false st p.1 p.2).summary.per_server
          q.1.target.name).isSome :=
      fun q hq => process_task_perServer_isSome (hdom q (List.mem_cons_of_mem _ hq))
    have h2 := @ih (process_task false st p.1 p.2) hdom'
    rw [show runTasks false st (p :: rest)
      = runTasks false (process_task false st p.1 p.2) rest from rfl]
    constructor
    · rw [h2.1]
      rw [show (p :: rest).length = rest.length + 1 from rfl]
      omega
    · have := h2.2
      omega

/-- Dry-run fold: only the global copied counter and the index move. -/
theorem runTasks_dry_counters {pairs : List (SyncTask × RemoteEnv)} {st : RunState} :
    (runTasks true st pairs).summary.copied = st.summary.copied + pairs.length ∧
    (runTasks true st pairs).summary.linked = st.summary.linked ∧
    (runTasks true st pairs).summary.errors = st.summary.errors ∧
    sumPerServer (runTasks true st pairs).summary.per_server
        (fun s => s.copied + s.linked + s.oversized)
      = sumPerServer st.summary.per_server
          (fun s => s.copied + s.linked + s.oversized) := by
  induction pairs generalizing st with
  | nil => exact ⟨rfl, rfl, rfl, rfl⟩
  | cons p rest ih =>
    rw [show runTasks true st (p :: rest)
      = runTasks true (process_task true st p.1 p.2) rest from rfl]
    have h1 := @ih (process_task true st p.1 p.2)
    have hps : (process_task true st p.1 p.2).summary.copied = st.summary.copied + 1 := rfl
    have hpl : (process_task true st p.1 p.2).summary.linked = st.summary.linked := rfl
    have hpe : (process_task true st p.1 p.2).summary.errors = st.summary.errors := rfl
    have hsum : sumPerServer (process_task true st p.1 p.2).summary.per_server
        (fun s => s.copied + s.linked + s.oversized)
      = sumPerServer st.summary.per_server
          (fun s => s.copied + s.linked + s.oversized) := by
      rw [show (process_task true st p.1 p.2).summary.per_server
        = amodify st.summary.per_server p.1.target.name
            (fun s => if s.remaining > 0 then { s with remaining := s.remaining - 1 } else s)
          from rfl]
      exact sumPerServer_amodify_invariant
        (by intro s; by_cases h : s.remaining > 0 <;> simp [h])
    refine ⟨?_, ?_, ?_, ?_⟩
    · rw [h1.1, hps]
      rw [show (p :: rest).length = rest.length + 1 from rfl]
      omega
    · rw [h1.2.1, hpl]
    · rw [h1.2.2.1, hpe]
    · rw [h1.2.2.2, hsum]

theorem syncInitStats_mem {config : SyncConfig} {fetch : String → List Asset}
    {p : String × ServerStats} (hp : p ∈ syncInitStats config fetch) :
    p.2.copied = 0 ∧ p.2.linked = 0 ∧ p.2.oversized = 0 ∧
      p.2.remaining = p.2.missing_before := by
  rcases mem_foldl_ainsert (show p ∈ (config.servers.foldl
      (fun ps s => ainsert ps s.name
        ⟨((alookup (syncIndex0 config fetch) s.name).getD []).length,
          ((alookup (syncMissing config fetch) s.name).getD []).length,
          ((alookup (syncMissing config fetch) s.name).getD []).length, 0, 0, 0⟩)
      []) from hp) with h | ⟨s, hs, hps⟩
  · simp at h
  · rw [hps]
    exact ⟨rfl, rfl, rfl, rfl⟩

theorem withEnvs_map_fst (tasks : List SyncTask) (envs : Nat → RemoteEnv) :
    (withEnvs tasks envs).map Prod.fst = tasks := by
  unfold withEnvs
  rw [List.map_map]
  have h : (Prod.fst ∘ fun p : Nat × SyncTask => (p.2, envs p.1))
      = fun p : Nat × SyncTask => p.2 := rfl
  rw [h, List.enum_map_snd]

theorem withEnvs_length (tasks : List SyncTask) (envs : Nat → RemoteEnv) :
    (withEnvs tasks envs).length = tasks.length := by
  have h := congrArg List.length (withEnvs_map_fst tasks envs)
  simpa using h

theorem mem_withEnvs_fst {tasks : List SyncTask} {envs : Nat → RemoteEnv}
    {p : SyncTask × RemoteEnv} (hp : p ∈ withEnvs tasks envs) :
    p.1 ∈ tasks := by
  have h : p.1 ∈ (withEnvs tasks envs).map Prod.fst := List.mem_map_of_mem Prod.fst hp
  rwa [withEnvs_map_fst] at h

/-- Every generated task's target is a configured server. -/
theorem syncTasks_target_mem {config : SyncConfig} {fetch : String → List Asset}
    {t : SyncTask} (ht : t ∈ syncTasks config fetch) :
    t.target ∈ config.servers := by
  rw [show syncTasks config fetch
    = (genTasks config.servers (syncIndex0 config fetch)
        (syncAllChecksums config fetch)).1 from rfl, mem_genTasks] at ht
  obtain ⟨ck, _, src, a, _, hmem⟩ := ht
  rw [mem_tasksForChecksum] at hmem
  obtain ⟨tgt, htgt, _, _, rfl⟩ := hmem
  exact htgt

theorem syncInitStats_isSome {config : SyncConfig} {fetch : String → List Asset}
    {s : ServerConfig} (hs : s ∈ config.servers) :
    (alookup (syncInitStats config fetch) s.name).isSome :=
  foldl_ainsert_isSome_of_mem (g := ServerConfig.name) hs

/-! ## C4 — counter conservation -/

/-- C4 counterexample: in a dry run of the demo configuration one task is
generated and counted in the global copied counter, but no per-server
counter moves: the claimed equalities
`sum(copied+linked+oversized+error_tasks) = |tasks|` and
`sum(copied+linked) = summary.copied + summary.linked` both fail
(0 ≠ 1). -/
theorem C4_counterexample_dry_run :
    sumPerServer (sync_assets demoConfig demoFetch true (fun _ => {})).1.per_server
        (fun s => s.copied + s.linked + s.oversized)
      + (sync_assets demoConfig demoFetch true (fun _ => {})).1.errors.length = 0 ∧
    (syncTasks demoConfig demoFetch).length = 1 ∧
    (sync_assets demoConfig demoFetch true (fun _ => {})).1.copied
      + (sync_assets demoConfig demoFetch true (fun _ => {})).1.linked = 1 := by
  exact ⟨rfl, rfl, rfl⟩

/-- C4 amended: after a non-dry run the per-target sums of
copied+linked+oversized together with the count of failure errors equal
the number of generated tasks, and the per-target copied+linked sum
equals the global copied+linked; in a dry run the global copied counter
alone absorbs every task — per-server counters stay zero and no errors
are recorded. -/
theorem C4_amended_counter_conservation (config : SyncConfig)
    (fetch : String → List Asset) (envs : Nat → RemoteEnv) :
    (sumPerServer (sync_assets config fetch false envs).1.per_server
        (fun s => s.copied + s.linked + s.oversized)
      + (sync_assets config fetch false envs).1.errors.length
      = (syncTasks config fetch).length) ∧
    (sumPerServer (sync_assets config fetch false envs).1.per_server
        (fun s => s.copied + s.linked)
      = (sync_assets config fetch false envs).1.copied
        + (sync_assets config fetch false envs).1.linked) ∧
    ((sync_assets config fetch true envs).1.copied
        = (syncTasks config fetch).length ∧
      (sync_assets config fetch true envs).1.linked = 0 ∧
      sumPerServer (sync_assets config fetch true envs).1.per_server
        (fun s => s.copied + s.linked + s.oversized) = 0 ∧
      (sync_assets config fetch true envs).1.errors = []) := by
  have hdom : ∀ p ∈ withEnvs (syncTasks config fetch) envs,
      (alookup (syncInitState config fetch).summary.per_server
        p.1.target.name).isSome := by
    intro p hp
    exact syncInitStats_isSome (syncTasks_target_mem (mem_withEnvs_fst hp))
  have herrs : (syncInitState config fetch).summary.errors = [] := by
    rw [show (syncInitState config fetch).summary.errors
      = (syncGen config fetch).2 from rfl]
    exact genTasks_errors_nil (fun c hc => syncSelect_isSome hc)
  have hz3 : sumPerServer (syncInitState config fetch).summary.per_server
      (fun s => s.copied + s.linked + s.oversized) = 0 :=
    sumPerServer_zero (fun p hp => by
      obtain ⟨h1, h2, h3, _⟩ := syncInitStats_mem
        (show p ∈ syncInitStats config fetch from hp)
      simp [h1, h2, h3])
  have hz2 : sumPerServer (syncInitState config fetch).summary.per_server
      (fun s => s.copied + s.linked) = 0 :=
    sumPerServer_zero (fun p hp => by
      obtain ⟨h1, h2, _, _⟩ := syncInitStats_mem
        (show p ∈ syncInitStats config fetch from hp)
      simp [h1, h2])
  have hc := runTasks_conservation hdom
  have hd := @runTasks_dry_counters
    (withEnvs (syncTasks config fetch) envs)
    (syncInitState config fetch)
  have hlen := withEnvs_length (syncTasks config fetch) envs
  refine ⟨?_, ?_, ?_, ?_, ?_, ?_⟩
  · have h1 := hc.1
    rw [hz3, herrs] at h1
    simpa [hlen] using h1
  · show sumPerServer (runTasks false (syncInitState config fetch)
        (withEnvs (syncTasks config fetch) envs)).summary.per_server
        (fun s => s.copied + s.linked)
      = (runTasks false (syncInitState config fetch)
          (withEnvs (syncTasks config fetch) envs)).summary.copied
        + (runTasks false (syncInitState config fetch)
            (withEnvs (syncTasks config fetch) envs)).summary.linked
    have h2 := hc.2
    rw [hz2] at h2
    have hic : (syncInitState config fetch).summary.copied = 0 := rfl
    have hil : (syncInitState config fetch).summary.linked = 0 := rfl
    rw [hic, hil] at h2
    omega
  · have h1 := hd.1
    have hic : (syncInitState config fetch).summary.copied = 0 := rfl
    rw [hic] at h1
    simpa [hlen] using h1
  · have h1 := hd.2.1
    have hil : (syncInitState config fetch).summary.linked = 0 := rfl
    rw [hil] at h1
    exact h1
  · show sumPerServer (runTasks true (syncInitState config fetch)
        (withEnvs (syncTasks config fetch) envs)).summary.per_server
        (fun s => s.copied + s.linked + s.oversized) = 0
    rw [hd.2.2.2, hz3]
  · show (runTasks true (syncInitState config fetch)
        (withEnvs (syncTasks config fetch) envs)).summary.errors = []
    rw [hd.2.2.1, herrs]

/-! ## Per-target stats invariants (C5) -/

theorem alookup_amodify_isSome_rev {α β : Type} [DecidableEq α]
    {m : List (α × β)} {k k' : α} {f : β → β}
    (h : (alookup (amodify m k f) k').isSome) : (alookup m k').isSome := by
  by_cases hk : k = k'
  · subst hk
    cases hv : alookup m k with
    | none => rw [alookup_amodify_none m k f hv] at h; rw [hv] at h; exact h
    | some v => simp [hv]
  · rwa [alookup_amodify_ne m k k' f hk] at h

theorem process_task_perServer_isSome_rev {dry : Bool} {st : RunState}
    {t : SyncTask} {env : RemoteEnv} {k : String}
    (h : (alookup (process_task dry st t env).summary.per_server k).isSome) :
    (alookup st.summary.per_server k).isSome := by
  unfold process_task at h
  by_cases hd : dry
  · simp only [hd, if_true] at h
    exact alookup_amodify_isSome_rev h
  · simp only [hd, if_false] at h
    revert h
    cases hr : (ensure_asset_on_target t.checksum t.source t.source_asset t.target env).1 with
    | ok b =>
      cases b <;> exact fun h =>
        alookup_amodify_isSome_rev (alookup_amodify_isSome_rev h)
    | error e =>
      cases e with
      | oversize => exact fun h => alookup_amodify_isSome_rev h
      | failure m => exact fun h => h

theorem runTasks_perServer_isSome_rev {dry : Bool} {st : RunState}
    {pairs : List (SyncTask × RemoteEnv)} {k : String}
    (h : (alookup (runTasks dry st pairs).summary.per_server k).isSome) :
    (alookup st.summary.per_server k).isSome := by
  induction pairs generalizing st with
  | nil => exact h
  | cons p rest ih =>
    rw [show runTasks dry st (p :: rest)
      = runTasks dry (process_task dry st p.1 p.2) rest from rfl] at h
    exact process_task_perServer_isSome_rev (ih h)

theorem countTasksFor_cons (n : String) (t : SyncTask) (ts : List SyncTask) :
    countTasksFor n (t :: ts)
      = countTasksFor n ts + (if t.target.name = n then 1 else 0) := by
  unfold countTasksFor
  rw [List.filter_cons]
  by_cases h : t.target.name = n <;> simp [h]

theorem countCredited_cons (n : String) (p : SyncTask × RemoteEnv)
    (rest : List (SyncTask × RemoteEnv)) :
    countCredited n (p :: rest)
      = countCredited n rest
        + (if p.1.target.name = n ∧ isCredited (ensure_asset_on_target
              p.1.checksum p.1.source p.1.source_asset p.1.target p.2).1 = true
           then 1 else 0) := by
  unfold countCredited
  rw [List.filter_cons]
  by_cases h1 : p.1.target.name = n
  · by_cases h2 : isCredited (ensure_asset_on_target
        p.1.checksum p.1.source p.1.source_asset p.1.target p.2).1 = true
    · simp [h1, h2]
    · simp [h1, h2]
  · simp [h1]

theorem countOversized_cons (n : String) (p : SyncTask × RemoteEnv)
    (rest : List (SyncTask × RemoteEnv)) :
    countOversized n (p :: rest)
      = countOversized n rest
        + (if p.1.target.name = n ∧ isOversize (ensure_asset_on_target
              p.1.checksum p.1.source p.1.source_asset p.1.target p.2).1 = true
           then 1 else 0) := by
  unfold countOversized
  rw [List.filter_cons]
  by_cases h1 : p.1.target.name = n
  · by_cases h2 : isOversize (ensure_asset_on_target
        p.1.checksum p.1.source p.1.source_asset p.1.target p.2).1 = true
    · simp [h1, h2]
    · simp [h1, h2]
  · simp [h1]

theorem taskOutcome_credited_iff (t : SyncTask) (env : RemoteEnv) :
    ((taskOutcome t env = .linked ∨ taskOutcome t env = .copied)
      ↔ isCredited (ensure_asset_on_target t.checksum t.source t.source_asset
          t.target env).1 = true) ∧
    (taskOutcome t env = .oversize
      ↔ isOversize (ensure_asset_on_target t.checksum t.source t.source_asset
          t.target env).1 = true) := by
  cases hr : (ensure_asset_on_target t.checksum t.source t.source_asset t.target env).1 with
  | ok b => cases b <;> simp [taskOutcome, isCredited, isOversize, hr]
  | error e => cases e <;> simp [taskOutcome, isCredited, isOversize, hr]

theorem credited_oversized_le (n : String) (pairs : List (SyncTask × RemoteEnv)) :
    countCredited n pairs + countOversized n pairs
      ≤ countTasksFor n (pairs.map Prod.fst) := by
  induction pairs with
  | nil => simp [countCredited, countOversized, countTasksFor]
  | cons p rest ih =>
    rw [List.map_cons, countTasksFor_cons, countCredited_cons, countOversized_cons]
    by_cases h1 : p.1.target.name = n
    · cases hr : (ensure_asset_on_target p.1.checksum p.1.source p.1.source_asset
          p.1.target p.2).1 with
      | ok b => simp [h1, hr, isCredited, isOversize]; omega
      | error e =>
        cases e with
        | oversize => simp [h1, hr, isCredited, isOversize]; omega
        | failure m => simp [h1, hr, isCredited, isOversize]; omega
    · simp [h1]
      omega

/-- The explicit per-server map of each outcome branch. -/
theorem applyOutcome_perServer_linked (st : RunState) (t : SyncTask) :
    (applyOutcome st t .linked).summary.per_server
      = amodify (amodify st.summary.per_server t.target.name
          (fun s => { s with linked := s.linked + 1 })) t.target.name
          (fun s => if s.remaining > 0 then { s with remaining := s.remaining - 1 }
                    else s) := rfl

theorem applyOutcome_perServer_copied (st : RunState) (t : SyncTask) :
    (applyOutcome st t .copied).summary.per_server
      = amodify (amodify st.summary.per_server t.target.name
          (fun s => { s with copied := s.copied + 1 })) t.target.name
          (fun s => if s.remaining > 0 then { s with remaining := s.remaining - 1 }
                    else s) := rfl

theorem applyOutcome_perServer_oversize (st : RunState) (t : SyncTask) :
    (applyOutcome st t .oversize).summary.per_server
      = amodify st.summary.per_server t.target.name
          (fun s => { s with oversized := s.oversized + 1 }) := rfl

theorem applyOutcome_perServer_failed (st : RunState) (t : SyncTask) (m : String) :
    (applyOutcome st t (.failed m)).summary.per_server
      = st.summary.per_server := rfl

/-- Non-dry per-target invariant: starting from an entry whose `remaining`
satisfies the code's relation, the counted credited and oversize
completions describe the final entry exactly, provided the total tasks
aimed at the target fit in `missing_before`. -/
theorem runTasks_stats_aux (pairs : List (SyncTask × RemoteEnv)) :
    ∀ (st : RunState) (n : String) (s : ServerStats),
      alookup st.summary.per_server n = some s →
      s.remaining = s.missing_before - (s.copied + s.linked) →
      s.copied + s.linked ≤ s.missing_before →
      s.copied + s.linked + s.oversized
        + countTasksFor n (pairs.map Prod.fst) ≤ s.missing_before →
      ∃ s', alookup (runTasks false st pairs).summary.per_server n = some s' ∧
        s'.missing_before = s.missing_before ∧
        s'.copied + s'.linked = s.copied + s.linked + countCredited n pairs ∧
        s'.oversized = s.oversized + countOversized n pairs ∧
        s'.remaining = s'.missing_before - (s'.copied + s'.linked) := by
  induction pairs with
  | nil =>
    intro st n s h hrem hcl hb
    refine ⟨s, h, rfl, ?_, ?_, ?_⟩
    · simp [countCredited]
    · simp [countOversized]
    · exact hrem
  | cons p rest ih =>
    intro st n s h hrem hcl hb
    rw [show runTasks false st (p :: rest)
      = runTasks false (process_task false st p.1 p.2) rest from rfl]
    rw [List.map_cons, countTasksFor_cons] at hb
    by_cases htn : p.1.target.name = n
    · simp only [htn, if_true] at hb
      rw [process_task_false_cases]
      cases ho : taskOutcome p.1 p.2 with
      | linked =>
        have hcred : isCredited (ensure_asset_on_target p.1.checksum p.1.source
            p.1.source_asset p.1.target p.2).1 = true :=
          (taskOutcome_credited_iff p.1 p.2).1.mp (Or.inl ho)
        have hov : ¬ isOversize (ensure_asset_on_target p.1.checksum p.1.source
            p.1.source_asset p.1.target p.2).1 = true := by
          intro hcon
          rw [← (taskOutcome_credited_iff p.1 p.2).2] at hcon
          rw [ho] at hcon
          cases hcon
        have hlt : s.copied + s.linked < s.missing_before := by omega
        have hpos : s.remaining > 0 := by omega
        have hstep : alookup (applyOutcome st p.1 .linked).summary.per_server n
            = some { s with linked := s.linked + 1, remaining := s.remaining - 1 } := by
          rw [applyOutcome_perServer_linked, htn]
          rw [alookup_amodify_self _ _ _ { s with linked := s.linked + 1 }
            (alookup_amodify_self _ _ _ s h)]
          simp [hpos]
        obtain ⟨s', h1, h2, h3, h4, h5⟩ := ih (applyOutcome st p.1 .linked) n
          { s with linked := s.linked + 1, remaining := s.remaining - 1 }
          hstep (by simp; omega) (by simp; omega) (by simp; omega)
        refine ⟨s', h1, by simpa using h2, ?_, ?_, h5⟩
        · rw [h3, countCredited_cons]
          simp [htn, hcred]
          omega
        · rw [h4, countOversized_cons]
          simp [htn, hov]
      | copied =>
        have hcred : isCredited (ensure_asset_on_target p.1.checksum p.1.source
            p.1.source_asset p.1.target p.2).1 = true :=
          (taskOutcome_credited_iff p.1 p.2).1.mp (Or.inr ho)
        have hov : ¬ isOversize (ensure_asset_on_target p.1.checksum p.1.source
            p.1.source_asset p.1.target p.2).1 = true := by
          intro hcon
          rw [← (taskOutcome_credited_iff p.1 p.2).2] at hcon
          rw [ho] at hcon
          cases hcon
        have hlt : s.copied + s.linked < s.missing_before := by omega
        have hpos : s.remaining > 0 := by omega
        have hstep : alookup (applyOutcome st p.1 .copied).summary.per_server n
            = some { s with copied := s.copied + 1, remaining := s.remaining - 1 } := by
          rw [applyOutcome_perServer_copied, htn]
          rw [alookup_amodify_self _ _ _ { s with copied := s.copied + 1 }
            (alookup_amodify_self _ _ _ s h)]
          simp [hpos]
        obtain ⟨s', h1, h2, h3, h4, h5⟩ := ih (applyOutcome st p.1 .copied) n
          { s with copied := s.copied + 1, remaining := s.remaining - 1 }
          hstep (by simp; omega) (by simp; omega) (by simp; omega)
        refine ⟨s', h1, by simpa using h2, ?_, ?_, h5⟩
        · rw [h3, countCredited_cons]
          simp [htn, hcred]
          omega
        · rw [h4, countOversized_cons]
          simp [htn, hov]
      | oversize =>
        have hov : isOversize (ensure_asset_on_target p.1.checksum p.1.source
            p.1.source_asset p.1.target p.2).1 = true :=
          (taskOutcome_credited_iff p.1 p.2).2.mp ho
        have hcred : ¬ isCredited (ensure_asset_on_target p.1.checksum p.1.source
            p.1.source_asset p.1.target p.2).1 = true := by
          intro hcon
          rcases (taskOutcome_credited_iff p.1 p.2).1.mpr hcon with h' | h' <;>
            (rw [ho] at h'; cases h')
        have hstep : alookup (applyOutcome st p.1 .oversize).summary.per_server n
            = some { s with oversized := s.oversized + 1 } := by
          rw [applyOutcome_perServer_oversize, htn]
          exact alookup_amodify_self _ _ _ s h
        obtain ⟨s', h1, h2, h3, h4, h5⟩ := ih (applyOutcome st p.1 .oversize) n
          { s with oversized := s.oversized + 1 }
          hstep (by simpa using hrem) (by simpa using hcl) (by simp; omega)
        refine ⟨s', h1, by simpa using h2, ?_, ?_, h5⟩
        · rw [h3, countCredited_cons]
          simp [htn, hcred]
        · rw [h4, countOversized_cons]
          simp [htn, hov]
          omega
      | failed m =>
        have hcred : ¬ isCredited (ensure_asset_on_target p.1.checksum p.1.source
            p.1.source_asset p.1.target p.2).1 = true := by
          intro hcon
          rcases (taskOutcome_credited_iff p.1 p.2).1.mpr hcon with h' | h' <;>
            (rw [ho] at h'; cases h')
        have hov : ¬ isOversize (ensure_asset_on_target p.1.checksum p.1.source
            p.1.source_asset p.1.target p.2).1 = true := by
          intro hcon
          rw [← (taskOutcome_credited_iff p.1 p.2).2] at hcon
          rw [ho] at hcon
          cases hcon
        have hstep : alookup (applyOutcome st p.1 (.failed m)).summary.per_server n
            = some s := by
          rw [applyOutcome_perServer_failed]
          exact h
        obtain ⟨s', h1, h2, h3, h4, h5⟩ := ih (applyOutcome st p.1 (.failed m)) n s
          hstep hrem hcl (by omega)
        refine ⟨s', h1, h2, ?_, ?_, h5⟩
        · rw [h3, countCredited_cons]
          simp [htn, hcred]
        · rw [h4, countOversized_cons]
          simp [htn, hov]
    · simp only [htn, if_false] at hb
      rw [process_task_false_cases]
      have hstep : alookup (applyOutcome st p.1 (taskOutcome p.1 p.2)).summary.per_server n
          = some s := by
        cases ho : taskOutcome p.1 p.2 with
        | linked =>
          rw [applyOutcome_perServer_linked,
            alookup_amodify_ne _ _ _ _ htn, alookup_amodify_ne _ _ _ _ htn]
          exact h
        | copied =>
          rw [applyOutcome_perServer_copied,
            alookup_amodify_ne _ _ _ _ htn, alookup_amodify_ne _ _ _ _ htn]
          exact h
        | oversize =>
          rw [applyOutcome_perServer_oversize, alookup_amodify_ne _ _ _ _ htn]
          exact h
        | failed m =>
          rw [applyOutcome_perServer_failed]
          exact h
      obtain ⟨s', h1, h2, h3, h4, h5⟩ := ih (applyOutcome st p.1 (taskOutcome p.1 p.2)) n s
        hstep hrem hcl (by omega)
      refine ⟨s', h1, h2, ?_, ?_, h5⟩
      · rw [h3, countCredited_cons]
        simp [htn]
      · rw [h4, countOversized_cons]
        simp [htn]

/-- Dry-run per-target invariant: counters stay put and `remaining`
decreases by one per processed task for the target. -/
theorem runTasks_dry_stats_aux (pairs : List (SyncTask × RemoteEnv)) :
    ∀ (st : RunState) (n : String) (s : ServerStats) (d : Nat),
      alookup st.summary.per_server n = some s →
      s.remaining = s.missing_before - d →
      d + countTasksFor n (pairs.map Prod.fst) ≤ s.missing_before →
      ∃ s', alookup (runTasks true st pairs).summary.per_server n = some s' ∧
        s'.missing_before = s.missing_before ∧ s'.copied = s.copied ∧
        s'.linked = s.linked ∧ s'.oversized = s.oversized ∧
        s'.remaining = s.missing_before
          - (d + countTasksFor n (pairs.map Prod.fst)) := by
  induction pairs with
  | nil =>
    intro st n s d h hrem hb
    refine ⟨s, h, rfl, rfl, rfl, rfl, ?_⟩
    rw [hrem]
    simp [countTasksFor]
  | cons p rest ih =>
    intro st n s d h hrem hb
    rw [show runTasks true st (p :: rest)
      = runTasks true (process_task true st p.1 p.2) rest from rfl]
    rw [List.map_cons, countTasksFor_cons] at hb ⊢
    have hper : (process_task true st p.1 p.2).summary.per_server
        = amodify st.summary.per_server p.1.target.name
            (fun s => if s.remaining > 0 then { s with remaining := s.remaining - 1 }
                      else s) := rfl
    by_cases htn : p.1.target.name = n
    · simp only [htn, if_true] at hb ⊢
      have hpos : s.remaining > 0 := by omega
      have hstep : alookup (process_task true st p.1 p.2).summary.per_server n
          = some { s with remaining := s.remaining - 1 } := by
        rw [hper, htn]
        rw [alookup_amodify_self _ _ _ s h]
        simp [hpos]
      obtain ⟨s', h1, h2, h3, h4, h5, h6⟩ := ih (process_task true st p.1 p.2) n
        { s with remaining := s.remaining - 1 } (d + 1)
        hstep (by simp; omega) (by simp; omega)
      refine ⟨s', h1, by simpa using h2, by simpa using h3,
        by simpa using h4, by simpa using h5, ?_⟩
      rw [h6]
      simp
      omega
    · simp only [htn, if_false] at hb ⊢
      have hstep : alookup (process_task true st p.1 p.2).summary.per_server n
          = some s := by
        rw [hper, alookup_amodify_ne _ _ _ _ htn]
        exact h
      obtain ⟨s', h1, h2, h3, h4, h5, h6⟩ := ih (process_task true st p.1 p.2) n s d
        hstep hrem (by omega)
      refine ⟨s', h1, h2, h3, h4, h5, ?_⟩
      rw [h6]
      omega

/-! ## Task-count bounds per target -/

theorem countTasksFor_tasksForChecksum_zero {servers : List ServerConfig}
    {index : Index} {ck : JVal} {src : ServerConfig} {a : Asset} {n : String}
    (h : ∀ u ∈ servers, u.name ≠ n) :
    countTasksFor n (tasksForChecksum servers index ck src a) = 0 := by
  induction servers with
  | nil => rfl
  | cons t rest ih =>
    have hrest := ih (fun u hu => h u (List.mem_cons_of_mem _ hu))
    unfold tasksForChecksum at hrest ⊢
    rw [List.filterMap_cons]
    by_cases h1 : t.name = src.name
    · rw [if_pos h1]
      exact hrest
    · rw [if_neg h1]
      by_cases h2 : ckContainsKey ((alookup index t.name).getD []) ck = true
      · rw [if_pos h2]
        exact hrest
      · rw [if_neg h2, countTasksFor_cons, hrest]
        simp [h t (List.mem_cons_self _ _)]

theorem countTasksFor_tasksForChecksum_le {servers : List ServerConfig}
    {index : Index} {ck : JVal} {src : ServerConfig} {a : Asset} {n : String}
    (hnd : (servers.map ServerConfig.name).Nodup) :
    countTasksFor n (tasksForChecksum servers index ck src a)
      ≤ (if ckContainsKey ((alookup index n).getD []) ck = true then 0 else 1) := by
  induction servers with
  | nil =>
    rw [show countTasksFor n (tasksForChecksum [] index ck src a) = 0 from rfl]
    exact Nat.zero_le _
  | cons t rest ih =>
    have hnd' := List.nodup_cons.mp hnd
    have hrec := ih hnd'.2
    unfold tasksForChecksum at hrec ⊢
    rw [List.filterMap_cons]
    by_cases h1 : t.name = src.name
    · rw [if_pos h1]
      exact hrec
    · rw [if_neg h1]
      by_cases h2 : ckContainsKey ((alookup index t.name).getD []) ck = true
      · rw [if_pos h2]
        exact hrec
      · rw [if_neg h2, countTasksFor_cons]
        by_cases h3 : t.name = n
        · have hz : countTasksFor n (tasksForChecksum rest index ck src a) = 0 := by
            refine countTasksFor_tasksForChecksum_zero (fun u hu hcon => ?_)
            apply hnd'.1
            rw [h3, ← hcon]
            exact List.mem_map_of_mem ServerConfig.name hu
          unfold tasksForChecksum at hz
          rw [hz, if_pos h3]
          have hcont : ¬ ckContainsKey ((alookup index n).getD []) ck = true := by
            rw [← h3]
            exact h2
          rw [if_neg hcont]
        · rw [if_neg h3]
          omega

theorem countTasksFor_append (n : String) (l₁ l₂ : List SyncTask) :
    countTasksFor n (l₁ ++ l₂) = countTasksFor n l₁ + countTasksFor n l₂ := by
  unfold countTasksFor
  rw [List.filter_append, List.length_append]

theorem countTasksFor_genTasks_le {servers : List ServerConfig} {index : Index}
    {cks : List JVal} {n : String}
    (hnd : (servers.map ServerConfig.name).Nodup) :
    countTasksFor n (genTasks servers index cks).1
      ≤ (cks.filter
          (fun ck => !(ckContainsKey ((alookup index n).getD []) ck))).length := by
  induction cks with
  | nil =>
    rw [show (genTasks servers index []).1 = [] from rfl]
    exact Nat.zero_le _
  | cons ck rest ih =>
    rw [genTasks_cons, List.filter_cons]
    cases hsel : select_source servers index ck with
    | none =>
      simp only
      by_cases hc : (!(ckContainsKey ((alookup index n).getD []) ck)) = true
      · rw [if_pos hc, List.length_cons]
        omega
      · rw [if_neg hc]
        exact ih
    | some pa =>
      obtain ⟨src, a⟩ := pa
      simp only
      rw [countTasksFor_append]
      have h1 := @countTasksFor_tasksForChecksum_le servers index ck src a n hnd
      by_cases hc : ckContainsKey ((alookup index n).getD []) ck = true
      · rw [if_pos hc] at h1
        have hc' : ¬ (!(ckContainsKey ((alookup index n).getD []) ck)) = true := by
          simp [hc]
        rw [if_neg hc']
        omega
      · rw [if_neg hc] at h1
        have hc' : (!(ckContainsKey ((alookup index n).getD []) ck)) = true := by
          simp
          simpa using hc
        rw [if_pos hc', List.length_cons]
        omega

theorem countTasksFor_take_le (n : String) (l : List SyncTask) (k : Nat) :
    countTasksFor n (l.take k) ≤ countTasksFor n l := by
  have h := countTasksFor_append n (l.take k) (l.drop k)
  rw [List.take_append_drop] at h
  omega

theorem alookup_map_missing (allCk : List JVal) (m : List (String × CkMap))
    (k : String) :
    alookup (m.map (fun q => (q.1, allCk.filter (fun c => !(ckContainsKey q.2 c))))) k
      = (alookup m k).map (fun mm => allCk.filter (fun c => !(ckContainsKey mm c))) := by
  induction m with
  | nil => simp [alookup_nil]
  | cons kv rest ih =>
    by_cases h : kv.1 = k
    · simp [alookup_cons, h]
    · simp [alookup_cons, h, ih]

/-- The sync index of a configured server is non-empty-keyed: the stats
row and missing list exist. -/
theorem syncMissing_lookup {config : SyncConfig} {fetch : String → List Asset}
    {s : ServerConfig} (hs : s ∈ config.servers) :
    ∃ m, alookup (syncIndex0 config fetch) s.name = some m ∧
      alookup (syncMissing config fetch) s.name
        = some ((unionKeys (syncIndex0 config fetch)).filter
            (fun c => !(ckContainsKey m c))) := by
  obtain ⟨m, hm⟩ := alookup_isSome_iff_exists.mp (syncIndex0_isSome_of_server hs)
  refine ⟨m, hm, ?_⟩
  have hne : syncIndex0 config fetch ≠ [] := by
    rw [show syncIndex0 config fetch
      = (index_assets (fetchedAssets config fetch)).1 from rfl, index_assets_fst]
    refine foldl_ainsert_ne_nil (Or.inr ?_)
    refine foldl_ainsert_ne_nil (Or.inr ?_)
    exact List.ne_nil_of_mem hs
  unfold syncMissing
  cases hidx : syncIndex0 config fetch with
  | nil => exact absurd hidx hne
  | cons p rest =>
    rw [show compute_missing (p :: rest)
      = (p :: rest).map (fun q => (q.1, (unionKeys (p :: rest)).filter
          (fun c => !(ckContainsKey q.2 c)))) from rfl]
    rw [alookup_map_missing, ← hidx, hm]
    rfl

/-- The initial stats row of a configured server, explicitly. -/
theorem syncInitStats_lookup {config : SyncConfig} {fetch : String → List Asset}
    {s : ServerConfig} (hnd : (config.servers.map ServerConfig.name).Nodup)
    (hs : s ∈ config.servers) :
    alookup (syncInitStats config fetch) s.name
      = some ⟨((alookup (syncIndex0 config fetch) s.name).getD []).length,
          ((alookup (syncMissing config fetch) s.name).getD []).length,
          ((alookup (syncMissing config fetch) s.name).getD []).length, 0, 0, 0⟩ :=
  alookup_foldl_ainsert_nodup (g := ServerConfig.name) hnd hs

/-- The per-target task count is bounded by the target's missing count. -/
theorem countTasksFor_le_missing {config : SyncConfig} {fetch : String → List Asset}
    {s : ServerConfig} (hnd : (config.servers.map ServerConfig.name).Nodup)
    (hs : s ∈ config.servers) :
    countTasksFor s.name (syncTasks config fetch)
      ≤ ((alookup (syncMissing config fetch) s.name).getD []).length := by
  obtain ⟨m, hm, hmiss⟩ := @syncMissing_lookup config fetch s hs
  have h1 : countTasksFor s.name (syncTasks config fetch)
      ≤ ((syncAllChecksums config fetch).filter
          (fun ck => !(ckContainsKey ((alookup (syncIndex0 config fetch) s.name).getD [])
            ck))).length :=
    countTasksFor_genTasks_le hnd
  rw [hm] at h1
  have h2 : ((syncAllChecksums config fetch).filter
        (fun ck => !(ckContainsKey ((some m).getD []) ck))).length
      = ((unionKeys (syncIndex0 config fetch)).filter
          (fun ck => !(ckContainsKey m ck))).length := by
    rw [show ((some m).getD [] : CkMap) = m from rfl]
    exact sortJ_filter_length _ _
  rw [hmiss]
  rw [h2] at h1
  exact h1

/-! ## C5 — per-server stats invariant -/

/-- C5 counterexample: an oversize task for the capped secondary bumps
its `oversized` counter but leaves `remaining` untouched (no
`_register_completion` on the oversize path), so
`remaining = missing_before − (copied+linked+oversized+failed)` fails:
remaining is 1 where the claimed formula yields 0. -/
theorem C5_counterexample_oversize_remaining :
    alookup (sync_assets demoOversizeConfig demoOversizeFetch false
        (fun _ => {})).1.per_server "secondary"
      = some ⟨0, 1, 1, 0, 0, 1⟩ ∧
    (sync_assets demoOversizeConfig demoOversizeFetch false (fun _ => {})).1.errors
      = [] ∧
    ((alookup (sync_assets demoOversizeConfig demoOversizeFetch false
        (fun _ => {})).1.per_server "secondary").getD zeroStats).remaining
      ≠ ((alookup (sync_assets demoOversizeConfig demoOversizeFetch false
          (fun _ => {})).1.per_server "secondary").getD zeroStats).missing_before
        - (((alookup (sync_assets demoOversizeConfig demoOversizeFetch false
            (fun _ => {})).1.per_server "secondary").getD zeroStats).copied
          + ((alookup (sync_assets demoOversizeConfig demoOversizeFetch false
              (fun _ => {})).1.per_server "secondary").getD zeroStats).linked
          + ((alookup (sync_assets demoOversizeConfig demoOversizeFetch false
              (fun _ => {})).1.per_server "secondary").getD zeroStats).oversized
          + (sync_assets demoOversizeConfig demoOversizeFetch false
              (fun _ => {})).1.errors.length) := by
  refine ⟨rfl, rfl, by decide⟩

/-- C5 amended: at every observable point of task execution, each
per-server stats row satisfies `copied + linked + oversized ≤
missing_before`, and `remaining = missing_before − (copied + linked)` in
a non-dry run — oversize and failed tasks do not decrement `remaining`.
In a dry run the copied/linked/oversized counters stay zero and
`remaining = missing_before − (processed tasks for that target)`. -/
theorem C5_amended_stats_invariant (config : SyncConfig)
    (fetch : String → List Asset) (envs : Nat → RemoteEnv) (dry : Bool)
    (k : Nat) (n : String) (s' : ServerStats)
    (hnd : (config.servers.map ServerConfig.name).Nodup)
    (h : alookup (syncStateAfter config fetch dry envs k).summary.per_server n
      = some s') :
    s'.copied + s'.linked + s'.oversized ≤ s'.missing_before ∧
    (dry = false → s'.remaining = s'.missing_before - (s'.copied + s'.linked)) ∧
    (dry = true → s'.copied = 0 ∧ s'.linked = 0 ∧ s'.oversized = 0 ∧
      s'.remaining = s'.missing_before
        - countTasksFor n ((syncTasks config fetch).take k)) := by
  have hsome0 : (alookup (syncInitState config fetch).summary.per_server n).isSome :=
    @runTasks_perServer_isSome_rev dry (syncInitState config fetch)
      ((withEnvs (syncTasks config fetch) envs).take k) n
      (by rw [show (syncStateAfter config fetch dry envs k).summary.per_server
            = (runTasks dry (syncInitState config fetch)
                ((withEnvs (syncTasks config fetch) envs).take k)).summary.per_server
            from rfl] at h
          rw [h]
          rfl)
  have hsome0' : (alookup (syncInitStats config fetch) n).isSome := hsome0
  rcases foldl_ainsert_key_mem hsome0' with h0 | ⟨srv, hsrv, hname⟩
  · simp [alookup_nil] at h0
  subst hname
  have hstats0 := @syncInitStats_lookup config fetch srv hnd hsrv
  have hmb := @countTasksFor_le_missing config fetch srv hnd hsrv
  have htake_map : ((withEnvs (syncTasks config fetch) envs).take k).map Prod.fst
      = (syncTasks config fetch).take k := by
    rw [List.map_take, withEnvs_map_fst]
  have htk : countTasksFor srv.name ((syncTasks config fetch).take k)
      ≤ ((alookup (syncMissing config fetch) srv.name).getD []).length :=
    le_trans (countTasksFor_take_le _ _ _) hmb
  cases dry with
  | false =>
    obtain ⟨s'', h1, h2, h3, h4, h5⟩ := runTasks_stats_aux
      ((withEnvs (syncTasks config fetch) envs).take k)
      (syncInitState config fetch) srv.name
      ⟨((alookup (syncIndex0 config fetch) srv.name).getD []).length,
        ((alookup (syncMissing config fetch) srv.name).getD []).length,
        ((alookup (syncMissing config fetch) srv.name).getD []).length, 0, 0, 0⟩
      hstats0 (by simp) (by simp)
      (by simpa [htake_map] using htk)
    have hs' : s' = s'' := by
      have hx : alookup (runTasks false (syncInitState config fetch)
          ((withEnvs (syncTasks config fetch) envs).take k)).summary.per_server
          srv.name = some s' := h
      rw [hx] at h1
      exact Option.some_inj.mp h1
    subst hs'
    have hco := credited_oversized_le srv.name
      ((withEnvs (syncTasks config fetch) envs).take k)
    rw [htake_map] at hco
    have h2' : s'.missing_before
        = ((alookup (syncMissing config fetch) srv.name).getD []).length := by
      simpa using h2
    have h3' : s'.copied + s'.linked
        = countCredited srv.name ((withEnvs (syncTasks config fetch) envs).take k) := by
      simpa using h3
    have h4' : s'.oversized
        = countOversized srv.name ((withEnvs (syncTasks config fetch) envs).take k) := by
      simpa using h4
    refine ⟨?_, fun _ => h5, fun hcon => absurd hcon (by decide)⟩
    omega
  | true =>
    obtain ⟨s'', h1, h2, h3, h4, h5, h6⟩ := runTasks_dry_stats_aux
      ((withEnvs (syncTasks config fetch) envs).take k)
      (syncInitState config fetch) srv.name
      ⟨((alookup (syncIndex0 config fetch) srv.name).getD []).length,
        ((alookup (syncMissing config fetch) srv.name).getD []).length,
        ((alookup (syncMissing config fetch) srv.name).getD []).length, 0, 0, 0⟩
      0 hstats0 (by simp) (by simpa [htake_map] using htk)
    have hs' : s' = s'' := by
      have hx : alookup (runTasks true (syncInitState config fetch)
          ((withEnvs (syncTasks config fetch) envs).take k)).summary.per_server
          srv.name = some s' := h
      rw [hx] at h1
      exact Option.some_inj.mp h1
    subst hs'
    have h2' : s'.missing_before
        = ((alookup (syncMissing config fetch) srv.name).getD []).length := by
      simpa using h2
    have h3' : s'.copied = 0 := by simpa using h3
    have h4' : s'.linked = 0 := by simpa using h4
    have h5' : s'.oversized = 0 := by simpa using h5
    have h6' : s'.remaining
        = ((alookup (syncMissing config fetch) srv.name).getD []).length
          - countTasksFor srv.name ((syncTasks config fetch).take k) := by
      rw [← htake_map]
      simpa using h6
    refine ⟨?_, fun hcon => absurd hcon (by decide), fun _ => ⟨h3', h4', h5', ?_⟩⟩
    · omega
    · omega

/-- Witness for C5 amended at the capped demo run after its single
(oversize) task. -/
theorem C5_amended_stats_invariant_witness :
    ((⟨0, 1, 1, 0, 0, 1⟩ : ServerStats).copied
        + (⟨0, 1, 1, 0, 0, 1⟩ : ServerStats).linked
        + (⟨0, 1, 1, 0, 0, 1⟩ : ServerStats).oversized
      ≤ (⟨0, 1, 1, 0, 0, 1⟩ : ServerStats).missing_before) ∧
    (false = false → (⟨0, 1, 1, 0, 0, 1⟩ : ServerStats).remaining
      = (⟨0, 1, 1, 0, 0, 1⟩ : ServerStats).missing_before
        - ((⟨0, 1, 1, 0, 0, 1⟩ : ServerStats).copied
          + (⟨0, 1, 1, 0, 0, 1⟩ : ServerStats).linked)) ∧
    (false = true → (⟨0, 1, 1, 0, 0, 1⟩ : ServerStats).copied = 0 ∧
      (⟨0, 1, 1, 0, 0, 1⟩ : ServerStats).linked = 0 ∧
      (⟨0, 1, 1, 0, 0, 1⟩ : ServerStats).oversized = 0 ∧
      (⟨0, 1, 1, 0, 0, 1⟩ : ServerStats).remaining
        = (⟨0, 1, 1, 0, 0, 1⟩ : ServerStats).missing_before
          - countTasksFor "secondary"
              ((syncTasks demoOversizeConfig demoOversizeFetch).take 1)) :=
  C5_amended_stats_invariant demoOversizeConfig demoOversizeFetch (fun _ => {})
    false 1 "secondary" ⟨0, 1, 1, 0, 0, 1⟩ (by decide) (by rfl)

end ImmichSync
